import Mathlib

/-!
Verification of the layout/content-fitting engine of the AI PowerPoint
generator (`powerpoint_generator.py`) against its specification.

The Python code is shallowly embedded: Python floats are modelled as
rationals (ℚ), Python `int(x)` (truncation toward zero) as `pyInt`,
`math.ceil` as `Int.ceil`, Python string length (code-point count) as
`String.length`, and a Python `ZeroDivisionError` as `Option.none`.
All definitions are executable.
-/

/-- Python `int(x)` on a float: truncation toward zero. -/
def pyInt (q : ℚ) : ℤ := if q < 0 then ⌈q⌉ else ⌊q⌋

/-- Splitting a character list at every delimiter character, keeping empty
pieces, as Python `re.split` with a single-character class and `str.split`
with an explicit separator do.  (Implemented structurally so that it reduces
definitionally; the core `String.split` recurses on byte positions and does
not.) -/
def splitChars (p : Char → Bool) : List Char → List (List Char)
  | [] => [[]]
  | c :: rest =>
    match splitChars p rest with
    | [] => [[c]]
    | h :: t => if p c then [] :: h :: t else (c :: h) :: t

/-- Python single-character-class `re.split` / predicate split on a string. -/
def pySplit (p : Char → Bool) (s : String) : List String :=
  (splitChars p s.data).map fun cs => String.mk cs

/-- Python `str.strip()`: drop leading and trailing whitespace. -/
def pyStrip (s : String) : String :=
  String.mk (((s.data.dropWhile Char.isWhitespace).reverse.dropWhile
    Char.isWhitespace).reverse)

/-- Python `str.lower()` (on the ASCII letters the keyword probes use). -/
def pyLower (s : String) : String := String.mk (s.data.map Char.toLower)

/-- Python `sep.join(pieces)`. -/
def pyJoin (sep : String) : List String → String
  | [] => ""
  | [x] => x
  | x :: rest => x ++ sep ++ pyJoin sep rest

/-- Python `str.split()` with no arguments: split on whitespace runs,
dropping empty pieces. -/
def pyWords (s : String) : List String :=
  (pySplit Char.isWhitespace s).filter fun w => w != ""

/-- Substring test on character lists, used to model Python `sub in s`. -/
def listContainsSub (l pat : List Char) : Bool :=
  l.tails.any fun t => pat.isPrefixOf t

/-- Python `pat in s` for strings. -/
def strContains (s pat : String) : Bool := listContainsSub s.data pat.data

/-! ## `_create_perfect_overflow_summary` (powerpoint_generator.py:1750-1780) -/

/-- The `topics` list built for at most two remaining items: the first two
whitespace words of each of the first two items, skipping wordless items. -/
def summaryTopics (remaining : List String) : List String :=
  (remaining.take 2).filterMap fun item =>
    let ws := (pyWords item).take 2
    if ws = [] then none else some (pyJoin " " ws)

/-- `_create_perfect_overflow_summary(remaining_items)`. -/
def createPerfectOverflowSummary (remaining : List String) : String :=
  if remaining.length ≤ 2 then
    if summaryTopics remaining = [] then
      "+ " ++ toString remaining.length ++ " mục khác"
    else
      "+ " ++ pyJoin ", " (summaryTopics remaining)
  else
    let allText := pyLower (pyJoin " " remaining)
    if strContains allText "python" && strContains allText "web" then
      "+ " ++ toString remaining.length ++ " mục về Web & Python"
    else if strContains allText "data" || strContains allText "machine learning" then
      "+ " ++ toString remaining.length ++ " mục về Data Science"
    else if strContains allText "framework" || strContains allText "library" then
      "+ " ++ toString remaining.length ++ " mục về Frameworks"
    else if strContains allText "application" then
      "+ " ++ toString remaining.length ++ " mục về Applications"
    else
      "+ " ++ toString remaining.length ++ " mục quan trọng khác"

/-! ## `_smart_compress_content_item` (powerpoint_generator.py:1712-1748) -/

/-- The word-accumulation loop: take words while
`current_length + len(word) + 1 <= max_chars - 10` (the limit argument is
already `max_chars - 10`), stopping at the first word that does not fit. -/
def greedyWords : List String → ℤ → ℤ → List String
  | [], _, _ => []
  | w :: rest, cur, limit =>
    if cur + (w.length : ℤ) + 1 ≤ limit then
      w :: greedyWords rest (cur + (w.length : ℤ) + 1) limit
    else []

/-- The "intelligent ending" keyword suffix appended after truncation. -/
def compressSuffix (mainPart : String) : String :=
  if strContains (pyLower mainPart) "python" then " (Python)"
  else if strContains (pyLower mainPart) "framework" then " (Framework)"
  else if strContains (pyLower mainPart) "data" then " (Data)"
  else " (...)"

/-- `_smart_compress_content_item(item, max_chars)`: keep the item if short
enough, otherwise keep the text before the first `:.;,` delimiter, further
truncated word-by-word with a keyword suffix when still too long. -/
def smartCompressContentItem (item : String) (maxChars : ℤ) : String :=
  if (item.length : ℤ) ≤ maxChars then item
  else
    let parts := pySplit (fun c => c == ':' || c == '.' || c == ';' || c == ',') item
    let mainPart := pyStrip (parts.headD item)
    if maxChars < (mainPart.length : ℤ) then
      let resultWords := greedyWords (pyWords mainPart) 0 (maxChars - 10)
      if resultWords ≠ [] then
        pyJoin " " resultWords ++ compressSuffix mainPart
      else mainPart
    else mainPart

/-! ## `_try_fit_content_with_font` and `_force_fit_content_with_compression`
(powerpoint_generator.py:1648-1710), with the constants
`CHARS_PER_INCH_WIDTH = 12`, `LINES_PER_INCH_HEIGHT = 4.5`,
`LINE_SPACING_FACTOR = 1.2` of `_calculate_perfect_content_fit`. -/

/-- `chars_per_line = int(width * 12 * (14 / font_size))` for a usable width. -/
def charsPerLine (uw : ℚ) (fontSize : ℤ) : ℤ :=
  pyInt (uw * 12 * (14 / (fontSize : ℚ)))

/-- `total_lines_available = int(height * 4.5 * (font_size / 14))` for a
usable height. -/
def totalLinesAvailable (uh : ℚ) (fontSize : ℤ) : ℤ :=
  pyInt (uh * (9/2) * ((fontSize : ℚ) / 14))

/-- The bullet-prefixed text `f"🔸 {item}"` (the emoji is one code point,
so its length is `item.length + 2`, exactly as in Python). -/
def bulletText (item : String) : String := "🔸 " ++ item

/-- `lines_needed = int(max(1, ceil(len(bullet_text)/chars_per_line)) * 1.2)`. -/
def linesNeeded (cpl : ℤ) (item : String) : ℤ :=
  pyInt (((max 1 ⌈((bulletText item).length : ℚ) / (cpl : ℚ)⌉ : ℤ) : ℚ) * (6/5))

/-- The greedy placement loop of `_try_fit_content_with_font`: accept items
in order while `lines_used + lines_needed ≤ budget`; on the first failure
return the accepted items and the whole remainder (`content[i:]`). -/
def tryFitLoop (cpl budget : ℤ) : List String → ℤ → List String × List String
  | [], _ => ([], [])
  | item :: rest, used =>
    let ln := linesNeeded cpl item
    if used + ln ≤ budget then
      let out := tryFitLoop cpl budget rest (used + ln)
      (item :: out.1, out.2)
    else ([], item :: rest)

/-- `_try_fit_content_with_font(content, width, height, font_size, 12, 4.5, 1.2)`.
The budget is `total_lines_available - 1` (one line reserved for a summary).
Returns `none` exactly when Python raises `ZeroDivisionError`, i.e. when
`chars_per_line == 0` and there is an item to measure. -/
def tryFitContentWithFont (content : List String) (uw uh : ℚ) (fontSize : ℤ) :
    Option (List String × String) :=
  let cpl := charsPerLine uw fontSize
  let total := totalLinesAvailable uh fontSize
  if cpl = 0 ∧ content ≠ [] then none
  else
    let out := tryFitLoop cpl (total - 1) content 0
    some (out.1, if out.2 = [] then "" else createPerfectOverflowSummary out.2)

/-- The greedy placement loop of `_force_fit_content_with_compression`:
like `tryFitLoop`, but each item is first compressed to at most
`chars_per_line * 2` characters, and the compressed form is both measured
and placed; the remainder on failure is the original `content[i:]`. -/
def forceFitLoop (cpl budget : ℤ) : List String → ℤ → List String × List String
  | [], _ => ([], [])
  | item :: rest, used =>
    let compressed := smartCompressContentItem item (cpl * 2)
    let ln := linesNeeded cpl compressed
    if used + ln ≤ budget then
      let out := forceFitLoop cpl budget rest (used + ln)
      (compressed :: out.1, out.2)
    else ([], item :: rest)

/-- `_force_fit_content_with_compression(content, width, height, font_size, ...)`. -/
def forceFitContentWithCompression (content : List String) (uw uh : ℚ) (fontSize : ℤ) :
    Option (List String × String) :=
  let cpl := charsPerLine uw fontSize
  let total := totalLinesAvailable uh fontSize
  if cpl = 0 ∧ content ≠ [] then none
  else
    let out := forceFitLoop cpl (total - 1) content 0
    some (out.1, if out.2 = [] then "" else createPerfectOverflowSummary out.2)

/-! ## `_calculate_perfect_content_fit` (powerpoint_generator.py:1613-1646) -/

/-- The result triple `(fitted_content, overflow_summary, optimal_font_size)`. -/
structure FitResult where
  fitted : List String
  summary : String
  fontSize : ℤ
deriving DecidableEq

/-- The descending candidate font sizes `[14, 13, 12, 11, 10, 9, 8]`. -/
def fontCandidates : List ℤ := [14, 13, 12, 11, 10, 9, 8]

/-- The font-size loop of `_calculate_perfect_content_fit`: try each
candidate size in order, returning at the first size whose fit places at
least `min(3, len(content))` items or all items; after the list is
exhausted, force-fit with compression at size 8. -/
def calcLoop (content : List String) (uw uh : ℚ) : List ℤ → Option FitResult
  | [] =>
    match forceFitContentWithCompression content uw uh 8 with
    | none => none
    | some (f, s) => some ⟨f, s, 8⟩
  | fs :: rest =>
    match tryFitContentWithFont content uw uh fs with
    | none => none
    | some (f, s) =>
      if min 3 content.length ≤ f.length ∨ f.length = content.length then some ⟨f, s, fs⟩
      else calcLoop content uw uh rest

/-- `_calculate_perfect_content_fit(content, area_width, area_height)`:
margins `usable_width = area_width - 0.4`, `usable_height = area_height - 0.2`,
then the font-size loop. `none` models the `ZeroDivisionError` raised when
some tried font size yields `chars_per_line == 0` on non-empty content. -/
def calculatePerfectContentFit (content : List String) (areaWidth areaHeight : ℚ) :
    Option FitResult :=
  calcLoop content (areaWidth - 2/5) (areaHeight - 1/5) fontCandidates

/-- Whether `_try_fit_content_with_font` at this font size would satisfy the
acceptance test of `_calculate_perfect_content_fit` (at least
`min(3, len(content))` items, or all items, placed). -/
def acceptAt (content : List String) (uw uh : ℚ) (fs : ℤ) : Bool :=
  match tryFitContentWithFont content uw uh fs with
  | none => false
  | some (f, _) =>
    if min 3 content.length ≤ f.length ∨ f.length = content.length then true else false

/-! ## `_auto_select_layout` (powerpoint_generator.py:931-954) and
`layout_configs` (powerpoint_generator.py:84-101) -/

/-- An area rectangle `{"x": .., "y": .., "width": .., "height": ..}` in inches. -/
structure AreaRect where
  x : ℚ
  y : ℚ
  width : ℚ
  height : ℚ
deriving DecidableEq

/-- `_auto_select_layout(content, image_path)`.  The availability test
`not image_path or not os.path.exists(image_path)` is abstracted into the
boolean `hasImage` (true iff the path is non-empty and the file exists). -/
def autoSelectLayout (content : List String) (hasImage : Bool) : String :=
  let contentLength := (content.map String.length).sum
  let numItems := content.length
  if !hasImage then "content_only"
  else if contentLength < 200 ∨ numItems ≤ 3 then "image_top_content_bottom"
  else if contentLength < 500 ∨ numItems ≤ 6 then "content_left_image_right"
  else "image_left_content_right"

/-- Modelled from the spec: the §4.2 Layout Selector rule, written from the
spec's words for refinement comparison with the code-derived
`autoSelectLayout`. -/
def selectLayoutSpecRule (items : List String) (hasImage : Bool) : String :=
  if !hasImage then "content_only"
  else if (items.map String.length).sum < 200 ∨ items.length ≤ 3 then
    "image_top_content_bottom"
  else if (items.map String.length).sum < 500 ∨ items.length ≤ 6 then
    "content_left_image_right"
  else "image_left_content_right"

/-- One entry of `layout_configs`. -/
structure LayoutEntry where
  imageArea : Option AreaRect
  contentArea : Option AreaRect
deriving DecidableEq

/-- `layout_configs`: exactly the three safe layouts; the buggy
`content_top_image_bottom` variant was removed from the dictionary. -/
def layoutConfigs : List (String × LayoutEntry) :=
  [("image_top_content_bottom",
     ⟨some ⟨1, 6/5, 8, 3⟩, some ⟨1/2, 21/5, 9, 3⟩⟩),
   ("content_left_image_right",
     ⟨some ⟨5, 3/2, 9/2, 11/2⟩, some ⟨1/2, 3/2, 9/2, 11/2⟩⟩),
   ("image_left_content_right",
     ⟨some ⟨1/2, 3/2, 9/2, 11/2⟩, some ⟨5, 3/2, 9/2, 11/2⟩⟩)]

/-! ## `_add_image_to_area` (powerpoint_generator.py:1026-1103) -/

/-- `Inches(q)` in python-pptx: `int(q * 914400)` EMU. -/
def toEmu (q : ℚ) : ℤ := pyInt (q * 914400)

/-- The geometry produced by the success path of `_add_image_to_area`:
the image's EMU bounds after aspect-preserving scale-to-fit and centering,
and the background frame's EMU bounds.  `imgLeftIn`/`imgTopIn` are the inch
values passed to `Inches(...)` when centering. -/
structure ImagePlacement where
  imgLeftIn : ℚ
  imgTopIn : ℚ
  imgLeft : ℤ
  imgTop : ℤ
  imgWidth : ℤ
  imgHeight : ℤ
  frameLeft : ℤ
  frameTop : ℤ
  frameWidth : ℤ
  frameHeight : ℤ
deriving DecidableEq

/-- The scale-fit/center/frame computation of `_add_image_to_area` for a
readable image with intrinsic dimensions `imgW × imgH` (its aspect ratio is
`imgW / imgH`).  Mirrors the code: `max_width`/`max_height` are the EMU
rectangle dimensions, the wider-than-area image is fitted to width, the
taller one to height, the result centered, and the background frame is the
image's post-scale bounding box padded by `Inches(0.05)` per side. -/
def fitImageInArea (imgW imgH : ℚ) (area : AreaRect) : ImagePlacement :=
  let maxW : ℤ := toEmu area.width
  let maxH : ℤ := toEmu area.height
  let aspect : ℚ := imgW / imgH
  let areaAspect : ℚ := (maxW : ℚ) / (maxH : ℚ)
  let w : ℤ := if areaAspect < aspect then maxW else pyInt ((maxH : ℚ) * aspect)
  let h : ℤ := if areaAspect < aspect then pyInt ((maxW : ℚ) / aspect) else maxH
  let leftIn : ℚ := area.x + (area.width - (w : ℚ) / 914400) / 2
  let topIn : ℚ := area.y + (area.height - (h : ℚ) / 914400) / 2
  let left : ℤ := toEmu leftIn
  let top : ℤ := toEmu topIn
  { imgLeftIn := leftIn, imgTopIn := topIn, imgLeft := left, imgTop := top,
    imgWidth := w, imgHeight := h,
    frameLeft := left - toEmu (1/20), frameTop := top - toEmu (1/20),
    frameWidth := w + toEmu (1/10), frameHeight := h + toEmu (1/10) }

/-- `os.path.basename` for the forward-slash paths used by the generator. -/
def basenameOfPath (p : String) : String :=
  ((splitChars (fun c => c == '/') p.data).map fun cs => String.mk cs).getLastD p

/-- The styled placeholder built in the `except` branch of
`_add_image_to_area`: a rounded rectangle covering the whole area, light
gray fill, gray dashed border (`dash_style = 2`), width 2pt, plus a caption
text box. -/
structure PlaceholderBox where
  rect : AreaRect
  fillRGB : ℕ × ℕ × ℕ
  lineRGB : ℕ × ℕ × ℕ
  lineWidthPt : ℚ
  dashStyle : ℕ
  caption : String
deriving DecidableEq

/-- A placed visual element of the image area: either a successfully fitted
image (with its background frame) or the error placeholder. -/
inductive PlacedVisual where
  | image (geom : ImagePlacement)
  | placeholder (box : PlaceholderBox)
deriving DecidableEq

/-- `_add_image_to_area(slide, image_path, area)`.  `src = some (w, h)`
models a readable raster image of intrinsic dimensions `w × h`; `src = none`
models every failure of `add_picture` (absent reference, non-existent file,
unreadable data), which the code catches, producing the placeholder instead
of propagating the exception. -/
def addImageToArea (src : Option (ℚ × ℚ)) (imagePath : String) (area : AreaRect) :
    PlacedVisual :=
  match src with
  | some (iw, ih) => .image (fitImageInArea iw ih area)
  | none =>
    .placeholder
      { rect := area, fillRGB := (240, 240, 240), lineRGB := (180, 180, 180),
        lineWidthPt := 2, dashStyle := 2,
        caption := "🖼️ Hình ảnh minh họa\n" ++
          (if imagePath = "" then "Không tìm thấy ảnh" else basenameOfPath imagePath) }

/-- A concrete image area (x = 5, y = 1.5, width = 4.5, height = 5.5 inches)
used to instantiate the image-fit geometry. -/
def c4Area : AreaRect := ⟨5, 3/2, 9/2, 11/2⟩

/-! ## Arithmetic facts about the numeric model -/

theorem pyInt_mono {a b : ℚ} (h : a ≤ b) : pyInt a ≤ pyInt b := by
  unfold pyInt
  by_cases ha : a < 0 <;> by_cases hb : b < 0 <;> simp only [ha, hb, if_true, if_false, if_pos, if_neg, not_false_iff]
  · exact Int.ceil_mono h
  · exact le_trans (Int.ceil_le.mpr (by exact_mod_cast le_of_lt ha))
      (Int.floor_nonneg.mpr (not_lt.mp hb))
  · exact absurd hb (not_lt.mpr (le_trans (not_lt.mp ha) h))
  · exact Int.floor_mono h

theorem pyInt_nonneg {q : ℚ} (h : -1 < q) : 0 ≤ pyInt q := by
  unfold pyInt
  split_ifs with hq
  · have h1 : (-1 : ℤ) < ⌈q⌉ := by
      rw [Int.lt_ceil]; exact_mod_cast h
    omega
  · exact Int.floor_nonneg.mpr (not_lt.mp hq)

theorem pyInt_le_self {q : ℚ} (h : 0 ≤ q) : (pyInt q : ℚ) ≤ q := by
  unfold pyInt
  rw [if_neg (not_lt.mpr h)]
  exact Int.floor_le q

theorem one_le_pyInt {q : ℚ} (h : 1 ≤ q) : 1 ≤ pyInt q := by
  unfold pyInt
  rw [if_neg (by linarith : ¬ q < 0)]
  exact Int.le_floor.mpr (by exact_mod_cast h)

theorem pyInt_le_neg_one {q : ℚ} (h : q ≤ -1) : pyInt q ≤ -1 := by
  unfold pyInt
  rw [if_pos (by linarith : q < 0)]
  exact Int.ceil_le.mpr (by exact_mod_cast h)

theorem pyInt_lt_one {q : ℚ} (h : q < 1) : pyInt q < 1 := by
  unfold pyInt
  split_ifs with hq
  · have h1 : ⌈q⌉ ≤ 0 := Int.ceil_le.mpr (by exact_mod_cast le_of_lt hq)
    omega
  · exact Int.floor_lt.mpr (by exact_mod_cast h)

theorem pyInt_sign_of_ne_zero {q : ℚ} (h : pyInt q ≠ 0) : 1 ≤ q ∨ q ≤ -1 := by
  by_contra hc
  push_neg at hc
  obtain ⟨h1, h2⟩ := hc
  apply h
  have hlt := pyInt_lt_one h1
  have hge : 0 ≤ pyInt q := pyInt_nonneg (by linarith)
  omega

theorem font_factor_ge_one {fs : ℤ} (h0 : 0 < fs) (h14 : fs ≤ 14) :
    1 ≤ (14 : ℚ) / (fs : ℚ) := by
  rw [one_le_div (by exact_mod_cast h0)]
  exact_mod_cast h14

theorem charsPerLine_fourteen (uw : ℚ) : charsPerLine uw 14 = pyInt (uw * 12) := by
  unfold charsPerLine
  norm_num

theorem one_le_charsPerLine {uw : ℚ} {fs : ℤ} (h : 1 ≤ charsPerLine uw 14)
    (h0 : 0 < fs) (h14 : fs ≤ 14) : 1 ≤ charsPerLine uw fs := by
  rw [charsPerLine_fourteen] at h
  have huw : 1 ≤ uw * 12 := by
    by_contra hc
    push_neg at hc
    have := pyInt_lt_one hc
    omega
  apply one_le_pyInt
  have hf1 : 1 ≤ (14 : ℚ) / (fs : ℚ) := font_factor_ge_one h0 h14
  calc (1 : ℚ) ≤ uw * 12 := huw
    _ = uw * 12 * 1 := by ring
    _ ≤ uw * 12 * ((14 : ℚ) / (fs : ℚ)) :=
        mul_le_mul_of_nonneg_left hf1 (by linarith)

theorem charsPerLine_ne_zero {uw : ℚ} {fs : ℤ} (h : charsPerLine uw 14 ≠ 0)
    (h0 : 0 < fs) (h14 : fs ≤ 14) : charsPerLine uw fs ≠ 0 := by
  rw [charsPerLine_fourteen] at h
  rcases pyInt_sign_of_ne_zero h with h1 | h1
  · have := @one_le_charsPerLine uw fs
      (by rw [charsPerLine_fourteen]; exact one_le_pyInt h1) h0 h14
    omega
  · have hf1 : 1 ≤ (14 : ℚ) / (fs : ℚ) := font_factor_ge_one h0 h14
    have hstep : uw * 12 * ((14 : ℚ) / (fs : ℚ)) ≤ (-1) * ((14 : ℚ) / (fs : ℚ)) :=
      mul_le_mul_of_nonneg_right h1 (by linarith)
    have h2 : uw * 12 * ((14 : ℚ) / (fs : ℚ)) ≤ -1 := by linarith
    have h3 := pyInt_le_neg_one h2
    unfold charsPerLine
    omega

theorem charsPerLine_mono {uw1 uw2 : ℚ} {fs : ℤ} (h : uw2 ≤ uw1) (h0 : 0 < fs) :
    charsPerLine uw2 fs ≤ charsPerLine uw1 fs := by
  apply pyInt_mono
  have hfp : (0 : ℚ) ≤ (14 : ℚ) / (fs : ℚ) :=
    le_of_lt (div_pos (by norm_num) (by exact_mod_cast h0))
  have h2 : uw2 * 12 ≤ uw1 * 12 := by linarith
  exact mul_le_mul_of_nonneg_right h2 hfp

theorem totalLinesAvailable_mono {uh1 uh2 : ℚ} {fs : ℤ} (h : uh2 ≤ uh1) (h0 : 0 ≤ fs) :
    totalLinesAvailable uh2 fs ≤ totalLinesAvailable uh1 fs := by
  apply pyInt_mono
  have hfp : (0 : ℚ) ≤ (fs : ℚ) / 14 := div_nonneg (by exact_mod_cast h0) (by norm_num)
  have h2 : uh2 * (9/2) ≤ uh1 * (9/2) := by linarith
  exact mul_le_mul_of_nonneg_right h2 hfp

theorem totalLinesAvailable_nonneg {uh : ℚ} {fs : ℤ} (h : -(1/5) < uh)
    (h0 : 0 < fs) (h14 : fs ≤ 14) : 0 ≤ totalLinesAvailable uh fs := by
  apply pyInt_nonneg
  have hf0 : (0 : ℚ) < (fs : ℚ) / 14 := div_pos (by exact_mod_cast h0) (by norm_num)
  have hf1 : (fs : ℚ) / 14 ≤ 1 := by
    rw [div_le_one (by norm_num)]
    exact_mod_cast h14
  rcases le_or_lt 0 uh with hu | hu
  · have : (0 : ℚ) ≤ uh * (9/2) * ((fs : ℚ) / 14) :=
      mul_nonneg (mul_nonneg hu (by norm_num)) (le_of_lt hf0)
    linarith
  · have hc : uh * (9/2) ≤ 0 := by nlinarith
    have hstep : uh * (9/2) * 1 ≤ uh * (9/2) * ((fs : ℚ) / 14) :=
      mul_le_mul_of_nonpos_left hf1 hc
    nlinarith

theorem bulletText_length (item : String) : (bulletText item).length = item.length + 2 := by
  unfold bulletText
  rw [String.length_append]
  have h2 : ("🔸 " : String).length = 2 := by decide
  omega

theorem one_le_linesNeeded (cpl : ℤ) (item : String) : 1 ≤ linesNeeded cpl item := by
  unfold linesNeeded
  apply one_le_pyInt
  have h1 : (1 : ℤ) ≤ max 1 ⌈((bulletText item).length : ℚ) / (cpl : ℚ)⌉ := le_max_left _ _
  have h2 : (1 : ℚ) ≤ ((max 1 ⌈((bulletText item).length : ℚ) / (cpl : ℚ)⌉ : ℤ) : ℚ) := by
    exact_mod_cast h1
  linarith

theorem linesNeeded_anti {c1 c2 : ℤ} (h1 : 1 ≤ c1) (h12 : c1 ≤ c2) (item : String) :
    linesNeeded c2 item ≤ linesNeeded c1 item := by
  unfold linesNeeded
  apply pyInt_mono
  have hL : (0 : ℚ) ≤ ((bulletText item).length : ℚ) := by positivity
  have hc1 : (0 : ℚ) < (c1 : ℚ) := by exact_mod_cast lt_of_lt_of_le zero_lt_one h1
  have hc2 : (c1 : ℚ) ≤ (c2 : ℚ) := by exact_mod_cast h12
  have hdiv : ((bulletText item).length : ℚ) / (c2 : ℚ) ≤ ((bulletText item).length : ℚ) / (c1 : ℚ) := by
    gcongr
  have hmax : max 1 ⌈((bulletText item).length : ℚ) / (c2 : ℚ)⌉ ≤
      max 1 ⌈((bulletText item).length : ℚ) / (c1 : ℚ)⌉ :=
    max_le_max le_rfl (Int.ceil_mono hdiv)
  have hmax2 : ((max 1 ⌈((bulletText item).length : ℚ) / (c2 : ℚ)⌉ : ℤ) : ℚ) ≤
      ((max 1 ⌈((bulletText item).length : ℚ) / (c1 : ℚ)⌉ : ℤ) : ℚ) := by exact_mod_cast hmax
  linarith

/-! ## Shape and capacity facts about the greedy placement loops -/

theorem tryFitLoop_take (cpl b : ℤ) :
    ∀ (items : List String) (used : ℤ),
      ∃ k, (tryFitLoop cpl b items used).1 = items.take k ∧
        (tryFitLoop cpl b items used).2 = items.drop k := by
  intro items
  induction items with
  | nil => exact fun _ => ⟨0, rfl, rfl⟩
  | cons item rest ih =>
    intro used
    by_cases hfit : used + linesNeeded cpl item ≤ b
    · obtain ⟨k, h1, h2⟩ := ih (used + linesNeeded cpl item)
      exact ⟨k + 1, by simp [tryFitLoop, hfit, h1], by simp [tryFitLoop, hfit, h2]⟩
    · exact ⟨0, by simp [tryFitLoop, hfit], by simp [tryFitLoop, hfit]⟩

theorem tryFitLoop_sum (cpl b : ℤ) :
    ∀ (items : List String) (used : ℤ),
      used + (((tryFitLoop cpl b items used).1).map (linesNeeded cpl)).sum ≤ max used b := by
  intro items
  induction items with
  | nil =>
    intro used
    simpa [tryFitLoop] using le_max_left used b
  | cons item rest ih =>
    intro used
    by_cases hfit : used + linesNeeded cpl item ≤ b
    · have hrec := ih (used + linesNeeded cpl item)
      rw [max_eq_right hfit] at hrec
      have hunf : (tryFitLoop cpl b (item :: rest) used).1
          = item :: (tryFitLoop cpl b rest (used + linesNeeded cpl item)).1 := by
        simp [tryFitLoop, hfit]
      rw [hunf, List.map_cons, List.sum_cons]
      have hm := le_max_right used b
      linarith
    · have hunf : (tryFitLoop cpl b (item :: rest) used).1 = [] := by
        simp [tryFitLoop, hfit]
      rw [hunf]
      simpa using le_max_left used b

theorem tryFitLoop_length_mono {cS bS cB bB : ℤ}
    (hln : ∀ it : String, linesNeeded cB it ≤ linesNeeded cS it) :
    ∀ (items : List String) (uS uB : ℤ), bS - uS ≤ bB - uB →
      ((tryFitLoop cS bS items uS).1).length ≤ ((tryFitLoop cB bB items uB).1).length := by
  intro items
  induction items with
  | nil => intro uS uB _; simp [tryFitLoop]
  | cons item rest ih =>
    intro uS uB hslack
    by_cases hfitS : uS + linesNeeded cS item ≤ bS
    · have h1 := hln item
      have hfitB : uB + linesNeeded cB item ≤ bB := by omega
      have hrec := ih (uS + linesNeeded cS item) (uB + linesNeeded cB item) (by omega)
      have hS : (tryFitLoop cS bS (item :: rest) uS).1
          = item :: (tryFitLoop cS bS rest (uS + linesNeeded cS item)).1 := by
        simp [tryFitLoop, hfitS]
      have hB : (tryFitLoop cB bB (item :: rest) uB).1
          = item :: (tryFitLoop cB bB rest (uB + linesNeeded cB item)).1 := by
        simp [tryFitLoop, hfitB]
      rw [hS, hB]
      simpa using hrec
    · have hS : (tryFitLoop cS bS (item :: rest) uS).1 = [] := by
        simp [tryFitLoop, hfitS]
      rw [hS]
      simp

theorem forceFitLoop_take (cpl b : ℤ) :
    ∀ (items : List String) (used : ℤ),
      ∃ k, (forceFitLoop cpl b items used).1
          = (items.take k).map (fun it => smartCompressContentItem it (cpl * 2)) ∧
        (forceFitLoop cpl b items used).2 = items.drop k := by
  intro items
  induction items with
  | nil => exact fun _ => ⟨0, rfl, rfl⟩
  | cons item rest ih =>
    intro used
    by_cases hfit : used + linesNeeded cpl (smartCompressContentItem item (cpl * 2)) ≤ b
    · obtain ⟨k, h1, h2⟩ := ih (used + linesNeeded cpl (smartCompressContentItem item (cpl * 2)))
      exact ⟨k + 1, by simp [forceFitLoop, hfit, h1], by simp [forceFitLoop, hfit, h2]⟩
    · exact ⟨0, by simp [forceFitLoop, hfit], by simp [forceFitLoop, hfit]⟩

theorem forceFitLoop_sum (cpl b : ℤ) :
    ∀ (items : List String) (used : ℤ),
      used + (((forceFitLoop cpl b items used).1).map (linesNeeded cpl)).sum ≤ max used b := by
  intro items
  induction items with
  | nil =>
    intro used
    simpa [forceFitLoop] using le_max_left used b
  | cons item rest ih =>
    intro used
    by_cases hfit : used + linesNeeded cpl (smartCompressContentItem item (cpl * 2)) ≤ b
    · have hrec := ih (used + linesNeeded cpl (smartCompressContentItem item (cpl * 2)))
      rw [max_eq_right hfit] at hrec
      have hunf : (forceFitLoop cpl b (item :: rest) used).1
          = smartCompressContentItem item (cpl * 2) ::
            (forceFitLoop cpl b rest (used + linesNeeded cpl (smartCompressContentItem item (cpl * 2)))).1 := by
        simp [forceFitLoop, hfit]
      rw [hunf, List.map_cons, List.sum_cons]
      have hm := le_max_right used b
      linarith
    · have hunf : (forceFitLoop cpl b (item :: rest) used).1 = [] := by
        simp [forceFitLoop, hfit]
      rw [hunf]
      simpa using le_max_left used b

/-! ## Facts about the overflow summary strings -/

theorem string_append_assoc (a b c : String) : (a ++ b) ++ c = a ++ (b ++ c) := by
  cases a with
  | mk da =>
    cases b with
    | mk db =>
      cases c with
      | mk dc =>
        show String.mk ((da ++ db) ++ dc) = String.mk (da ++ (db ++ dc))
        rw [List.append_assoc]

theorem createPerfectOverflowSummary_plus (rem : List String) :
    ∃ t, createPerfectOverflowSummary rem = "+ " ++ t := by
  simp only [createPerfectOverflowSummary]
  split_ifs <;> exact ⟨_, rfl⟩

theorem plus_append_ne_empty (t : String) : ("+ " ++ t) ≠ "" := by
  intro h
  have hlen := congrArg String.length h
  rw [String.length_append] at hlen
  have h2 : ("+ " : String).length = 2 := by decide
  have h0 : ("" : String).length = 0 := by decide
  omega

theorem createPerfectOverflowSummary_ne_empty (rem : List String) :
    createPerfectOverflowSummary rem ≠ "" := by
  obtain ⟨t, ht⟩ := createPerfectOverflowSummary_plus rem
  rw [ht]
  exact plus_append_ne_empty t

/-! ## Characterization of the fitter pipeline -/

theorem tryFitContentWithFont_eq (content : List String) (uw uh : ℚ) (fs : ℤ)
    (h : ¬ (charsPerLine uw fs = 0 ∧ content ≠ [])) :
    tryFitContentWithFont content uw uh fs =
      some ((tryFitLoop (charsPerLine uw fs) (totalLinesAvailable uh fs - 1) content 0).1,
        if (tryFitLoop (charsPerLine uw fs) (totalLinesAvailable uh fs - 1) content 0).2 = []
        then "" else createPerfectOverflowSummary
          ((tryFitLoop (charsPerLine uw fs) (totalLinesAvailable uh fs - 1) content 0).2)) := by
  simp only [tryFitContentWithFont, if_neg h]

theorem forceFitContentWithCompression_eq (content : List String) (uw uh : ℚ) (fs : ℤ)
    (h : ¬ (charsPerLine uw fs = 0 ∧ content ≠ [])) :
    forceFitContentWithCompression content uw uh fs =
      some ((forceFitLoop (charsPerLine uw fs) (totalLinesAvailable uh fs - 1) content 0).1,
        if (forceFitLoop (charsPerLine uw fs) (totalLinesAvailable uh fs - 1) content 0).2 = []
        then "" else createPerfectOverflowSummary
          ((forceFitLoop (charsPerLine uw fs) (totalLinesAvailable uh fs - 1) content 0).2)) := by
  simp only [forceFitContentWithCompression, if_neg h]

theorem calcLoop_master (content : List String) (uw uh : ℚ) :
    ∀ l : List ℤ,
      (∀ fs ∈ l, ¬ (charsPerLine uw fs = 0 ∧ content ≠ [])) →
      ¬ (charsPerLine uw 8 = 0 ∧ content ≠ []) →
      ∃ r, calcLoop content uw uh l = some r ∧
        (r.fontSize ∈ l ∨ r.fontSize = 8) ∧
        (r.fitted.map (linesNeeded (charsPerLine uw r.fontSize))).sum ≤
          max 0 (totalLinesAvailable uh r.fontSize - 1) ∧
        ∃ k, (r.fitted = content.take k ∨
              r.fitted = (content.take k).map
                (fun it => smartCompressContentItem it (charsPerLine uw 8 * 2))) ∧
          r.summary = (if content.drop k = [] then ""
            else createPerfectOverflowSummary (content.drop k)) := by
  intro l
  induction l with
  | nil =>
    intro _ h8
    obtain ⟨k, hk1, hk2⟩ := forceFitLoop_take (charsPerLine uw 8)
      (totalLinesAvailable uh 8 - 1) content 0
    have hforce := forceFitContentWithCompression_eq content uw uh 8 h8
    refine ⟨⟨(forceFitLoop (charsPerLine uw 8) (totalLinesAvailable uh 8 - 1) content 0).1,
      (if (forceFitLoop (charsPerLine uw 8) (totalLinesAvailable uh 8 - 1) content 0).2 = []
       then "" else createPerfectOverflowSummary
         ((forceFitLoop (charsPerLine uw 8) (totalLinesAvailable uh 8 - 1) content 0).2)), 8⟩,
      ?_, Or.inr rfl, ?_, ⟨k, Or.inr hk1, ?_⟩⟩
    · simp only [calcLoop, hforce]
    · have hs := forceFitLoop_sum (charsPerLine uw 8) (totalLinesAvailable uh 8 - 1) content 0
      simpa using hs
    · rw [hk2]
  | cons fs rest ih =>
    intro hl h8
    have hfs := hl fs (List.mem_cons_self fs rest)
    have htry := tryFitContentWithFont_eq content uw uh fs hfs
    by_cases hacc :
        min 3 content.length ≤
            ((tryFitLoop (charsPerLine uw fs) (totalLinesAvailable uh fs - 1) content 0).1).length ∨
          ((tryFitLoop (charsPerLine uw fs) (totalLinesAvailable uh fs - 1) content 0).1).length
            = content.length
    · obtain ⟨k, hk1, hk2⟩ := tryFitLoop_take (charsPerLine uw fs)
        (totalLinesAvailable uh fs - 1) content 0
      refine ⟨⟨(tryFitLoop (charsPerLine uw fs) (totalLinesAvailable uh fs - 1) content 0).1,
        (if (tryFitLoop (charsPerLine uw fs) (totalLinesAvailable uh fs - 1) content 0).2 = []
         then "" else createPerfectOverflowSummary
           ((tryFitLoop (charsPerLine uw fs) (totalLinesAvailable uh fs - 1) content 0).2)), fs⟩,
        ?_, Or.inl (List.mem_cons_self fs rest), ?_, ⟨k, Or.inl hk1, ?_⟩⟩
      · simp only [calcLoop, htry]
        rw [if_pos hacc]
      · have hs := tryFitLoop_sum (charsPerLine uw fs) (totalLinesAvailable uh fs - 1) content 0
        simpa using hs
      · rw [hk2]
    · obtain ⟨r, hr1, hr2, hr3, hr4⟩ := ih (fun f hf => hl f (List.mem_cons_of_mem fs hf)) h8
      refine ⟨r, ?_, ?_, hr3, hr4⟩
      · simp only [calcLoop, htry]
        rw [if_neg hacc]
        exact hr1
      · rcases hr2 with h | h
        · exact Or.inl (List.mem_cons_of_mem fs h)
        · exact Or.inr h

theorem fontCandidates_bounds : ∀ fs ∈ fontCandidates, 0 < fs ∧ fs ≤ 14 := by decide

theorem noCrash_try (content : List String) (uw : ℚ)
    (h : content = [] ∨ charsPerLine uw 14 ≠ 0) :
    ∀ fs ∈ fontCandidates, ¬ (charsPerLine uw fs = 0 ∧ content ≠ []) := by
  intro fs hfs
  rcases h with h | h
  · rintro ⟨_, hne⟩
    exact hne h
  · obtain ⟨h0, h14⟩ := fontCandidates_bounds fs hfs
    rintro ⟨hz, _⟩
    exact charsPerLine_ne_zero h h0 h14 hz

theorem noCrash_eight (content : List String) (uw : ℚ)
    (h : content = [] ∨ charsPerLine uw 14 ≠ 0) :
    ¬ (charsPerLine uw 8 = 0 ∧ content ≠ []) := by
  rcases h with h | h
  · rintro ⟨_, hne⟩
    exact hne h
  · rintro ⟨hz, _⟩
    exact charsPerLine_ne_zero h (by norm_num) (by norm_num) hz

/-! ## Evaluation kit.  `ℚ` arithmetic does not reduce definitionally (its
normalization uses well-founded recursion), so concrete values of `pyInt`
applications are established through interval bounds that `norm_num`
discharges symbolically. -/

theorem pyInt_of_bounds (q : ℚ) (z : ℤ) (h0 : 0 ≤ z) (h1 : (z : ℚ) ≤ q)
    (h2 : q < z + 1) : pyInt q = z := by
  have hq : ¬ q < 0 := by
    push_neg
    calc (0 : ℚ) ≤ (z : ℚ) := by exact_mod_cast h0
      _ ≤ q := h1
  unfold pyInt
  rw [if_neg hq]
  exact Int.floor_eq_iff.mpr ⟨h1, h2⟩

theorem charsPerLine_compute (uw : ℚ) (fs v : ℤ) (h0 : 0 ≤ v)
    (h1 : (v : ℚ) ≤ uw * 12 * (14 / (fs : ℚ)))
    (h2 : uw * 12 * (14 / (fs : ℚ)) < v + 1) :
    charsPerLine uw fs = v := by
  unfold charsPerLine
  exact pyInt_of_bounds _ _ h0 h1 h2

theorem totalLinesAvailable_compute (uh : ℚ) (fs v : ℤ) (h0 : 0 ≤ v)
    (h1 : (v : ℚ) ≤ uh * (9/2) * ((fs : ℚ) / 14))
    (h2 : uh * (9/2) * ((fs : ℚ) / 14) < v + 1) :
    totalLinesAvailable uh fs = v := by
  unfold totalLinesAvailable
  exact pyInt_of_bounds _ _ h0 h1 h2

theorem linesNeeded_compute (cpl : ℤ) (item : String) (L : ℕ) (m v : ℤ)
    (hL : (bulletText item).length = L) (h1m : 1 ≤ m)
    (hm1 : (m : ℚ) - 1 < (L : ℚ) / (cpl : ℚ)) (hm2 : (L : ℚ) / (cpl : ℚ) ≤ (m : ℚ))
    (hv0 : 0 ≤ v) (hv1 : (v : ℚ) ≤ (m : ℚ) * (6/5)) (hv2 : (m : ℚ) * (6/5) < (v : ℚ) + 1) :
    linesNeeded cpl item = v := by
  unfold linesNeeded
  rw [hL]
  have hm : ⌈(L : ℚ) / (cpl : ℚ)⌉ = m := by
    rw [Int.ceil_eq_iff]
    exact ⟨hm1, hm2⟩
  rw [hm, max_eq_right h1m]
  exact pyInt_of_bounds _ _ hv0 hv1 hv2

/-- Claim C1 (amended): whenever the Content Fitter completes — that is, for
empty input, or whenever the computed `chars_per_line` at the largest
candidate font is nonzero, which excludes exactly the inputs on which the
code raises `ZeroDivisionError` — the returned placed items, measured by the
fitter's own per-item line estimate at the returned font size, total at most
the area's computed line capacity at that font size. -/
theorem contentFitterNoOverflow (content : List String) (areaWidth areaHeight : ℚ)
    (hh : 0 < areaHeight)
    (hnc : content = [] ∨ charsPerLine (areaWidth - 2/5) 14 ≠ 0) :
    ∃ r, calculatePerfectContentFit content areaWidth areaHeight = some r ∧
      (r.fitted.map (linesNeeded (charsPerLine (areaWidth - 2/5) r.fontSize))).sum ≤
        totalLinesAvailable (areaHeight - 1/5) r.fontSize := by
  obtain ⟨r, h1, h2, h3, _⟩ := calcLoop_master content (areaWidth - 2/5) (areaHeight - 1/5)
    fontCandidates (noCrash_try content _ hnc) (noCrash_eight content _ hnc)
  refine ⟨r, h1, ?_⟩
  have hfs : 0 < r.fontSize ∧ r.fontSize ≤ 14 := by
    rcases h2 with h | h
    · exact fontCandidates_bounds _ h
    · rw [h]
      norm_num
  have ht0 : 0 ≤ totalLinesAvailable (areaHeight - 1/5) r.fontSize :=
    totalLinesAvailable_nonneg (by linarith) hfs.1 hfs.2
  have hm : max 0 (totalLinesAvailable (areaHeight - 1/5) r.fontSize - 1) ≤
      totalLinesAvailable (areaHeight - 1/5) r.fontSize :=
    max_le ht0 (by omega)
  exact le_trans h3 hm

/-- Claim C1 witness: spec example 1 — three short items in a 9 × 5.5 area. -/
theorem contentFitterNoOverflow_witness :
    (0 : ℚ) < 11/2 ∧
    ∃ r, calculatePerfectContentFit ["Point one", "Point two", "Point three"] 9 (11/2)
        = some r ∧
      (r.fitted.map (linesNeeded (charsPerLine ((9 : ℚ) - 2/5) r.fontSize))).sum ≤
        totalLinesAvailable ((11/2 : ℚ) - 1/5) r.fontSize := by
  have hc := charsPerLine_compute ((9 : ℚ) - 2/5) 14 103 (by norm_num) (by norm_num) (by norm_num)
  exact ⟨by norm_num,
    contentFitterNoOverflow ["Point one", "Point two", "Point three"] 9 (11/2)
      (by norm_num) (Or.inr (by omega))⟩

/-- Claim C1 counterexample: for `areaWidth = 0.45`, `areaHeight = 1` (both
positive) and the one-item list `["a"]`, `chars_per_line` is `int(0.6) = 0`
at font 14 and `_calculate_perfect_content_fit` raises `ZeroDivisionError`
(modelled `none`), so no `FitResult` satisfying the no-overflow bound is
returned; the claim quantified over all positive dimensions is false. -/
theorem contentFitterCrash : calculatePerfectContentFit ["a"] (9/20) 1 = none := by
  have hc := charsPerLine_compute ((9/20 : ℚ) - 2/5) 14 0 le_rfl (by norm_num) (by norm_num)
  unfold calculatePerfectContentFit fontCandidates
  simp [calcLoop, tryFitContentWithFont, hc]

/-- Claim C2 (amended): whenever the Content Fitter completes, the returned
`placedItems` is, in original order with nothing skipped or duplicated,
either a leading segment (`take k`) of the input items, or — on the
compression fallback path — the image of a leading segment under the
per-item compression `_smart_compress_content_item` at twice the
font-8 `chars_per_line`. -/
theorem placedItemsOrderedFromHead (content : List String) (areaWidth areaHeight : ℚ)
    (hnc : content = [] ∨ charsPerLine (areaWidth - 2/5) 14 ≠ 0) :
    ∃ r, calculatePerfectContentFit content areaWidth areaHeight = some r ∧
      ∃ k, r.fitted = content.take k ∨
        r.fitted = (content.take k).map
          (fun it => smartCompressContentItem it (charsPerLine (areaWidth - 2/5) 8 * 2)) := by
  obtain ⟨r, h1, _, _, k, hk, _⟩ := calcLoop_master content (areaWidth - 2/5) (areaHeight - 1/5)
    fontCandidates (noCrash_try content _ hnc) (noCrash_eight content _ hnc)
  exact ⟨r, h1, k, hk⟩

/-- Claim C2 witness: two items in a 5 × 2 area. -/
theorem placedItemsOrderedFromHead_witness :
    ((["alpha", "beta"] : List String) = [] ∨ charsPerLine ((5 : ℚ) - 2/5) 14 ≠ 0) ∧
    ∃ r, calculatePerfectContentFit ["alpha", "beta"] 5 2 = some r ∧
      ∃ k, r.fitted = (["alpha", "beta"] : List String).take k ∨
        r.fitted = ((["alpha", "beta"] : List String).take k).map
          (fun it => smartCompressContentItem it (charsPerLine ((5 : ℚ) - 2/5) 8 * 2)) := by
  have hc := charsPerLine_compute ((5 : ℚ) - 2/5) 14 55 (by norm_num) (by norm_num) (by norm_num)
  exact ⟨Or.inr (by omega),
    placedItemsOrderedFromHead ["alpha", "beta"] 5 2 (Or.inr (by omega))⟩

/-- Evaluation of the Content Fitter on a single item of bullet length
49–52 in a 1.5 × 1 area: every candidate font size is rejected (the item
alone needs more lines than the reserved budget), and the compression
fallback places the compressed form of the item. -/
theorem calcFit_single_compressed (item : String) (L : ℕ)
    (hL : (bulletText item).length = L) (hL1 : 49 ≤ L) (hL2 : L ≤ 52)
    (hcomp : smartCompressContentItem item 46 = "Tong quan") :
    calculatePerfectContentFit [item] (3/2) 1 = some ⟨["Tong quan"], "", 8⟩ := by
  have hLq1 : (49 : ℚ) ≤ (L : ℚ) := by exact_mod_cast hL1
  have hLq2 : ((L : ℚ)) ≤ 52 := by exact_mod_cast hL2
  have hw14 := charsPerLine_compute ((11/10 : ℚ)) 14 13 (by norm_num) (by norm_num) (by norm_num)
  have hw13 := charsPerLine_compute ((11/10 : ℚ)) 13 14 (by norm_num) (by norm_num) (by norm_num)
  have hw12 := charsPerLine_compute ((11/10 : ℚ)) 12 15 (by norm_num) (by norm_num) (by norm_num)
  have hw11 := charsPerLine_compute ((11/10 : ℚ)) 11 16 (by norm_num) (by norm_num) (by norm_num)
  have hw10 := charsPerLine_compute ((11/10 : ℚ)) 10 18 (by norm_num) (by norm_num) (by norm_num)
  have hw9 := charsPerLine_compute ((11/10 : ℚ)) 9 20 (by norm_num) (by norm_num) (by norm_num)
  have hw8 := charsPerLine_compute ((11/10 : ℚ)) 8 23 (by norm_num) (by norm_num) (by norm_num)
  have ht14 := totalLinesAvailable_compute ((4/5 : ℚ)) 14 3 (by norm_num) (by norm_num) (by norm_num)
  have ht13 := totalLinesAvailable_compute ((4/5 : ℚ)) 13 3 (by norm_num) (by norm_num) (by norm_num)
  have ht12 := totalLinesAvailable_compute ((4/5 : ℚ)) 12 3 (by norm_num) (by norm_num) (by norm_num)
  have ht11 := totalLinesAvailable_compute ((4/5 : ℚ)) 11 2 (by norm_num) (by norm_num) (by norm_num)
  have ht10 := totalLinesAvailable_compute ((4/5 : ℚ)) 10 2 (by norm_num) (by norm_num) (by norm_num)
  have ht9 := totalLinesAvailable_compute ((4/5 : ℚ)) 9 2 (by norm_num) (by norm_num) (by norm_num)
  have ht8 := totalLinesAvailable_compute ((4/5 : ℚ)) 8 2 (by norm_num) (by norm_num) (by norm_num)
  have hln14 : linesNeeded 13 item = 4 :=
    linesNeeded_compute 13 item L 4 4 hL (by norm_num)
      (by push_cast; rw [lt_div_iff₀ (by norm_num : (0:ℚ) < 13)]; linarith)
      (by push_cast; rw [div_le_iff₀ (by norm_num : (0:ℚ) < 13)]; linarith)
      (by norm_num) (by norm_num) (by norm_num)
  have hln13 : linesNeeded 14 item = 4 :=
    linesNeeded_compute 14 item L 4 4 hL (by norm_num)
      (by push_cast; rw [lt_div_iff₀ (by norm_num : (0:ℚ) < 14)]; linarith)
      (by push_cast; rw [div_le_iff₀ (by norm_num : (0:ℚ) < 14)]; linarith)
      (by norm_num) (by norm_num) (by norm_num)
  have hln12 : linesNeeded 15 item = 4 :=
    linesNeeded_compute 15 item L 4 4 hL (by norm_num)
      (by push_cast; rw [lt_div_iff₀ (by norm_num : (0:ℚ) < 15)]; linarith)
      (by push_cast; rw [div_le_iff₀ (by norm_num : (0:ℚ) < 15)]; linarith)
      (by norm_num) (by norm_num) (by norm_num)
  have hln11 : linesNeeded 16 item = 4 :=
    linesNeeded_compute 16 item L 4 4 hL (by norm_num)
      (by push_cast; rw [lt_div_iff₀ (by norm_num : (0:ℚ) < 16)]; linarith)
      (by push_cast; rw [div_le_iff₀ (by norm_num : (0:ℚ) < 16)]; linarith)
      (by norm_num) (by norm_num) (by norm_num)
  have hln10 : linesNeeded 18 item = 3 :=
    linesNeeded_compute 18 item L 3 3 hL (by norm_num)
      (by push_cast; rw [lt_div_iff₀ (by norm_num : (0:ℚ) < 18)]; linarith)
      (by push_cast; rw [div_le_iff₀ (by norm_num : (0:ℚ) < 18)]; linarith)
      (by norm_num) (by norm_num) (by norm_num)
  have hln9 : linesNeeded 20 item = 3 :=
    linesNeeded_compute 20 item L 3 3 hL (by norm_num)
      (by push_cast; rw [lt_div_iff₀ (by norm_num : (0:ℚ) < 20)]; linarith)
      (by push_cast; rw [div_le_iff₀ (by norm_num : (0:ℚ) < 20)]; linarith)
      (by norm_num) (by norm_num) (by norm_num)
  have hln8 : linesNeeded 23 item = 3 :=
    linesNeeded_compute 23 item L 3 3 hL (by norm_num)
      (by push_cast; rw [lt_div_iff₀ (by norm_num : (0:ℚ) < 23)]; linarith)
      (by push_cast; rw [div_le_iff₀ (by norm_num : (0:ℚ) < 23)]; linarith)
      (by norm_num) (by norm_num) (by norm_num)
  have hcomp2 : smartCompressContentItem item ((23 : ℤ) * 2) = "Tong quan" := by
    rw [show ((23 : ℤ) * 2) = 46 from by norm_num]
    exact hcomp
  have hlnC : linesNeeded 23 "Tong quan" = 1 :=
    linesNeeded_compute 23 "Tong quan" 11 1 1 (by decide) (by norm_num)
      (by push_cast; rw [lt_div_iff₀ (by norm_num : (0:ℚ) < 23)]; norm_num)
      (by push_cast; rw [div_le_iff₀ (by norm_num : (0:ℚ) < 23)]; norm_num)
      (by norm_num) (by norm_num) (by norm_num)
  unfold calculatePerfectContentFit fontCandidates
  norm_num [calcLoop, tryFitContentWithFont, forceFitContentWithCompression,
    tryFitLoop, forceFitLoop, hw14, hw13, hw12, hw11, hw10, hw9, hw8,
    ht14, ht13, ht12, ht11, ht10, ht9, ht8,
    hln14, hln13, hln12, hln11, hln10, hln9, hln8, hcomp, hcomp2, hlnC, min_def]

/-- Claim C2 counterexample: in a 1.5 × 1 area the single item
`"Tong quan:aaa…"` (47 characters) is force-fitted through the compression
path, and the placed item `"Tong quan"` is not the input item, so
`placedItems` is not a prefix of the input list. -/
theorem placedItemsNotSourceItems :
    calculatePerfectContentFit ["Tong quan:aaaaaaaaaaaaaaaaaaaaaaaaaaaaaaaaaaaaa"] (3/2) 1
      = some ⟨["Tong quan"], "", 8⟩ ∧
    ¬ ∃ t, ["Tong quan"] ++ t = ["Tong quan:aaaaaaaaaaaaaaaaaaaaaaaaaaaaaaaaaaaaa"] := by
  constructor
  · exact calcFit_single_compressed _ 49 (by decide) (by norm_num) (by norm_num) (by decide)
  · rintro ⟨t, ht⟩
    rw [List.singleton_append] at ht
    injection ht with h1 _
    exact absurd h1 (by decide)

/-- Claim C5 (amended): whenever the Content Fitter completes, an empty
`overflowSummary` means exactly as many items were placed as were given
(each being the input item or its compressed form, in order), while a
non-empty summary means strictly fewer items were placed than given and the
summary is `_create_perfect_overflow_summary` of the dropped remainder
`content[len(placedItems):]`. -/
theorem fitResultCoverage (content : List String) (areaWidth areaHeight : ℚ)
    (hnc : content = [] ∨ charsPerLine (areaWidth - 2/5) 14 ≠ 0) :
    ∃ r, calculatePerfectContentFit content areaWidth areaHeight = some r ∧
      (r.summary = "" → r.fitted.length = content.length) ∧
      (r.summary ≠ "" → r.fitted.length < content.length ∧
        r.summary = createPerfectOverflowSummary (content.drop r.fitted.length)) ∧
      ∃ k, r.fitted = content.take k ∨
        r.fitted = (content.take k).map
          (fun it => smartCompressContentItem it (charsPerLine (areaWidth - 2/5) 8 * 2)) := by
  obtain ⟨r, h1, _, _, k, hk, hsum⟩ := calcLoop_master content (areaWidth - 2/5)
    (areaHeight - 1/5) fontCandidates (noCrash_try content _ hnc) (noCrash_eight content _ hnc)
  refine ⟨r, h1, ?_, ?_, k, hk⟩
  · intro hemp
    by_cases hd : content.drop k = []
    · have hlen : content.length ≤ k := List.drop_eq_nil_iff.mp hd
      have htk : content.take k = content := List.take_of_length_le hlen
      rcases hk with h | h <;> rw [h, htk]
      simp
    · exfalso
      rw [hsum, if_neg hd] at hemp
      exact createPerfectOverflowSummary_ne_empty _ hemp
  · intro hne
    by_cases hd : content.drop k = []
    · exfalso
      rw [hsum, if_pos hd] at hne
      exact hne rfl
    · have hklen : k < content.length := by
        by_contra hc
        push_neg at hc
        exact hd (List.drop_eq_nil_of_le hc)
      have hflen : r.fitted.length = k := by
        rcases hk with h | h
        · rw [h, List.length_take, min_eq_left (le_of_lt hklen)]
        · rw [h, List.length_map, List.length_take, min_eq_left (le_of_lt hklen)]
      refine ⟨by rw [hflen]; exact hklen, ?_⟩
      rw [hsum, if_neg hd, hflen]

/-- Claim C5 witness: two items in a 1.5 × 1 area (overflow occurs). -/
theorem fitResultCoverage_witness :
    ((["alpha", "beta"] : List String) = [] ∨ charsPerLine ((3/2 : ℚ) - 2/5) 14 ≠ 0) ∧
    ∃ r, calculatePerfectContentFit ["alpha", "beta"] (3/2) 1 = some r ∧
      (r.summary = "" → r.fitted.length = (["alpha", "beta"] : List String).length) ∧
      (r.summary ≠ "" → r.fitted.length < (["alpha", "beta"] : List String).length ∧
        r.summary = createPerfectOverflowSummary
          ((["alpha", "beta"] : List String).drop r.fitted.length)) ∧
      ∃ k, r.fitted = (["alpha", "beta"] : List String).take k ∨
        r.fitted = ((["alpha", "beta"] : List String).take k).map
          (fun it => smartCompressContentItem it (charsPerLine ((3/2 : ℚ) - 2/5) 8 * 2)) := by
  have hc := charsPerLine_compute ((3/2 : ℚ) - 2/5) 14 13 (by norm_num) (by norm_num) (by norm_num)
  exact ⟨Or.inr (by omega),
    fitResultCoverage ["alpha", "beta"] (3/2) 1 (Or.inr (by omega))⟩

/-- Claim C5 counterexample: in a 1.5 × 1 area the single 48-character item
is compressed to `"Tong quan"` and placed, the summary is empty, yet the
input item does not appear in `placedItems` — refuting "if `overflowSummary`
is empty then every input item appears in `placedItems`". -/
theorem fitResultCoverageFails :
    calculatePerfectContentFit ["Tong quan:aaaaaaaaaaaaaaaaaaaaaaaaaaaaaaaaaaaaaa"] (3/2) 1
      = some ⟨["Tong quan"], "", 8⟩ ∧
    "Tong quan:aaaaaaaaaaaaaaaaaaaaaaaaaaaaaaaaaaaaaa" ∉ (["Tong quan"] : List String) :=
  ⟨calcFit_single_compressed _ 50 (by decide) (by norm_num) (by norm_num) (by decide),
   by decide⟩

/-- Claim C8: the Content Fitter is modelled by a pure function — the source
method reads no mutable state, clock, or randomness (it uses only its
arguments, module constants, and the pure helpers embedded above), so two
calls on identical `(content, area_width, area_height)` arguments yield
identical `(fitted_content, overflow_summary, font_size)` triples. -/
theorem contentFitterDeterministic (content : List String) (areaWidth areaHeight : ℚ) :
    calculatePerfectContentFit content areaWidth areaHeight
      = calculatePerfectContentFit content areaWidth areaHeight := rfl

/-- Claim C3: `_auto_select_layout` coincides with the spec's §4.2 selection
rule (no image → content only; short or few items → image on top; medium →
content left; otherwise image left), always returns one of the four safe
layout names — in particular never the excluded `content_top_image_bottom` —
and the excluded layout is absent from `layout_configs`. -/
theorem layoutSelectorRule :
    (∀ (content : List String) (hasImage : Bool),
      autoSelectLayout content hasImage = selectLayoutSpecRule content hasImage ∧
      autoSelectLayout content hasImage ∈
        ["content_only", "image_top_content_bottom", "content_left_image_right",
         "image_left_content_right"]) ∧
    layoutConfigs.map Prod.fst =
      ["image_top_content_bottom", "content_left_image_right", "image_left_content_right"] := by
  refine ⟨fun content hasImage => ⟨rfl, ?_⟩, rfl⟩
  unfold autoSelectLayout
  by_cases h1 : (!hasImage) = true
  · rw [if_pos h1]
    simp
  · rw [if_neg h1]
    by_cases h2 : (content.map String.length).sum < 200 ∨ content.length ≤ 3
    · rw [if_pos h2]
      simp
    · rw [if_neg h2]
      by_cases h3 : (content.map String.length).sum < 500 ∨ content.length ≤ 6
      · rw [if_pos h3]
        simp
      · rw [if_neg h3]
        simp

/-- Claim C9: `_add_image_to_area` with an unavailable image source (absent
reference, non-existent file, or unreadable data — every case in which
`add_picture` raises) produces the styled placeholder: a shape covering the
whole assigned area with light-gray fill, gray dashed border
(`dash_style = 2`) of width 2pt, and the explanatory caption, instead of
propagating the exception (the embedding is a total function). -/
theorem imageUnavailablePlaceholder (imagePath : String) (area : AreaRect) :
    ∃ box, addImageToArea none imagePath area = PlacedVisual.placeholder box ∧
      box.rect = area ∧ box.dashStyle = 2 ∧ box.lineWidthPt = 2 ∧
      box.fillRGB = (240, 240, 240) ∧ box.lineRGB = (180, 180, 180) ∧
      ∃ t, box.caption = "🖼️ Hình ảnh minh họa\n" ++ t :=
  ⟨_, rfl, rfl, rfl, rfl, rfl, rfl, _, rfl⟩

theorem calcLoop_font_mem (content : List String) (uw uh : ℚ) :
    ∀ (l : List ℤ) (r : FitResult), calcLoop content uw uh l = some r →
      r.fontSize ∈ l ∨ r.fontSize = 8 := by
  intro l
  induction l with
  | nil =>
    intro r h
    right
    simp only [calcLoop] at h
    rcases hF : forceFitContentWithCompression content uw uh 8 with _ | ⟨f, s⟩ <;> rw [hF] at h
    · simp at h
    · simp only [Option.some.injEq] at h
      rw [← h]
  | cons fs rest ih =>
    intro r h
    simp only [calcLoop] at h
    rcases hT : tryFitContentWithFont content uw uh fs with _ | ⟨f, s⟩ <;> rw [hT] at h
    · simp at h
    · dsimp only at h
      by_cases hc : min 3 content.length ≤ f.length ∨ f.length = content.length
      · rw [if_pos hc] at h
        simp only [Option.some.injEq] at h
        left
        rw [← h]
        exact List.mem_cons_self fs rest
      · rw [if_neg hc] at h
        rcases ih r h with hm | h8
        · exact Or.inl (List.mem_cons_of_mem fs hm)
        · exact Or.inr h8

theorem calcLoop_reject_font8 (content : List String) (uw uh : ℚ) :
    ∀ (l : List ℤ) (r : FitResult),
      (∀ fs ∈ l, acceptAt content uw uh fs = false) →
      calcLoop content uw uh l = some r → r.fontSize = 8 := by
  intro l
  induction l with
  | nil =>
    intro r _ h
    simp only [calcLoop] at h
    rcases hF : forceFitContentWithCompression content uw uh 8 with _ | ⟨f, s⟩ <;> rw [hF] at h
    · simp at h
    · simp only [Option.some.injEq] at h
      rw [← h]
  | cons fs rest ih =>
    intro r hrej h
    simp only [calcLoop] at h
    rcases hT : tryFitContentWithFont content uw uh fs with _ | ⟨f, s⟩ <;> rw [hT] at h
    · simp at h
    · dsimp only at h
      have hfs := hrej fs (List.mem_cons_self fs rest)
      unfold acceptAt at hfs
      rw [hT] at hfs
      dsimp only at hfs
      by_cases hc : min 3 content.length ≤ f.length ∨ f.length = content.length
      · rw [if_pos hc] at hfs
        simp at hfs
      · rw [if_neg hc] at h
        exact ih r (fun g hg => hrej g (List.mem_cons_of_mem fs hg)) h

/-- Claim C10 (amended): whenever the Content Fitter completes and returns a
result, the returned font size belongs to the fixed candidate set
`{14, 13, 12, 11, 10, 9, 8}` — in particular it is never below 8 — and when
every candidate font size is rejected (the compression fallback path is
taken), the returned font size is exactly 8.  (On the inputs where the code
raises `ZeroDivisionError` no font size is returned at all, so the claim
quantified over all positive dimensions fails; see the counterexample.) -/
theorem fontSizeInCandidates (content : List String) (areaWidth areaHeight : ℚ)
    (r : FitResult) (h : calculatePerfectContentFit content areaWidth areaHeight = some r) :
    r.fontSize ∈ fontCandidates ∧
      ((∀ fs ∈ fontCandidates,
          acceptAt content (areaWidth - 2/5) (areaHeight - 1/5) fs = false) →
        r.fontSize = 8) := by
  constructor
  · rcases calcLoop_font_mem content (areaWidth - 2/5) (areaHeight - 1/5) fontCandidates r h
      with hm | h8
    · exact hm
    · rw [h8]
      decide
  · intro hrej
    exact calcLoop_reject_font8 content _ _ fontCandidates r hrej h

/-- Evaluation of the fitter on a single short item in a 3 × 3 area: the
item fits at the largest candidate font. -/
theorem calcFit_small_item : calculatePerfectContentFit ["a"] 3 3 = some ⟨["a"], "", 14⟩ := by
  have hw := charsPerLine_compute ((13/5 : ℚ)) 14 31 (by norm_num) (by norm_num) (by norm_num)
  have ht := totalLinesAvailable_compute ((14/5 : ℚ)) 14 12 (by norm_num) (by norm_num) (by norm_num)
  have hln : linesNeeded 31 "a" = 1 :=
    linesNeeded_compute 31 "a" 3 1 1 (by decide) (by norm_num)
      (by push_cast; rw [lt_div_iff₀ (by norm_num : (0:ℚ) < 31)]; norm_num)
      (by push_cast; rw [div_le_iff₀ (by norm_num : (0:ℚ) < 31)]; norm_num)
      (by norm_num) (by norm_num) (by norm_num)
  unfold calculatePerfectContentFit fontCandidates
  norm_num [calcLoop, tryFitContentWithFont, tryFitLoop, hw, ht, hln, min_def]

/-- Claim C10 witness: the 3 × 3 area with one short item returns font 14,
which is in the candidate set. -/
theorem fontSizeInCandidates_witness :
    calculatePerfectContentFit ["a"] 3 3 = some ⟨["a"], "", 14⟩ ∧
    ((⟨["a"], "", 14⟩ : FitResult).fontSize ∈ fontCandidates ∧
      ((∀ fs ∈ fontCandidates, acceptAt ["a"] ((3 : ℚ) - 2/5) ((3 : ℚ) - 1/5) fs = false) →
        (⟨["a"], "", 14⟩ : FitResult).fontSize = 8)) :=
  ⟨calcFit_small_item, fontSizeInCandidates ["a"] 3 3 _ calcFit_small_item⟩

/-- Claim C10 counterexample: for `areaWidth = 0.44`, `areaHeight = 1` (both
positive) and items `["xy"]`, the fitter raises `ZeroDivisionError`
(modelled `none`), so no `chosenFontSize` is returned at all — the claim
quantified over every positive area is false. -/
theorem fontSizeNotTotal : calculatePerfectContentFit ["xy"] (11/25) 1 = none := by
  have hc := charsPerLine_compute ((11/25 : ℚ) - 2/5) 14 0 le_rfl (by norm_num) (by norm_num)
  unfold calculatePerfectContentFit fontCandidates
  simp [calcLoop, tryFitContentWithFont, hc]

theorem isPrefixOf_append_self (p t : List Char) : p.isPrefixOf (p ++ t) = true := by
  induction p with
  | nil => simp
  | cons c cs ih => simp [List.isPrefixOf, ih]

theorem listContainsSub_head (l pat : List Char) (h : pat.isPrefixOf l = true) :
    listContainsSub l pat = true := by
  unfold listContainsSub
  cases l with
  | nil => simpa [List.tails] using h
  | cons c cs =>
    rw [List.tails_cons, List.any_cons]
    simp [h]

theorem listContainsSub_cons (c : Char) (l pat : List Char)
    (h : listContainsSub l pat = true) : listContainsSub (c :: l) pat = true := by
  unfold listContainsSub at *
  rw [List.tails_cons, List.any_cons]
  simp [h]

theorem listContainsSub_append_left (a l pat : List Char)
    (h : listContainsSub l pat = true) : listContainsSub (a ++ l) pat = true := by
  induction a with
  | nil => simpa using h
  | cons c cs ih => simpa using listContainsSub_cons c (cs ++ l) pat ih

theorem strContains_middle (a b c : String) : strContains (a ++ b ++ c) b = true := by
  unfold strContains
  rw [string_append_assoc]
  simp only [String.data_append]
  exact listContainsSub_append_left _ _ _
    (listContainsSub_head _ _ (isPrefixOf_append_self _ _))

/-- Claim C6 (amended): for every non-empty dropped list the summary begins
with `"+ "` and is non-empty, and when at least three items are dropped it
always contains the dropped count (either with a probe-detected theme name
or in the generic phrase).  For one or two dropped items, however, the code
names the leading words of the dropped items without the count, and degrades
to the bare phrase `"N mục khác"` when the dropped items contain no words —
see the counterexample. -/
theorem overflowSummaryShape (rem : List String) (hne : rem ≠ []) :
    (∃ t, createPerfectOverflowSummary rem = "+ " ++ t) ∧
    createPerfectOverflowSummary rem ≠ "" ∧
    (2 < rem.length →
      strContains (createPerfectOverflowSummary rem) (toString rem.length) = true) := by
  refine ⟨createPerfectOverflowSummary_plus rem, createPerfectOverflowSummary_ne_empty rem, ?_⟩
  intro h2
  simp only [createPerfectOverflowSummary]
  rw [if_neg (by omega : ¬ rem.length ≤ 2)]
  split_ifs <;> exact strContains_middle _ _ _

/-- Claim C6 witness: three dropped items yield a `"+ "`-phrase containing
the count 3. -/
theorem overflowSummaryShape_witness :
    (["a", "b", "c"] : List String) ≠ [] ∧
    ((∃ t, createPerfectOverflowSummary ["a", "b", "c"] = "+ " ++ t) ∧
     createPerfectOverflowSummary ["a", "b", "c"] ≠ "" ∧
     (2 < (["a", "b", "c"] : List String).length →
       strContains (createPerfectOverflowSummary ["a", "b", "c"])
         (toString (["a", "b", "c"] : List String).length) = true)) :=
  ⟨by decide, overflowSummaryShape ["a", "b", "c"] (by decide)⟩

/-- Claim C6 counterexample: the single dropped item `"hello world extra"`
produces the summary `"+ hello world"`, which names the leading words but
does not contain the dropped count (no digit at all) nor any of the four
theme names of the closed probe set — refuting "theme plus the count, or
leading words plus the count". -/
theorem overflowSummaryNoCount :
    createPerfectOverflowSummary ["hello world extra"] = "+ hello world" ∧
    strContains "+ hello world" "1" = false ∧
    ((["Web & Python", "Data Science", "Frameworks", "Applications"].all
      fun th => !(strContains "+ hello world" th)) = true) :=
  ⟨by decide, by decide, by decide⟩

theorem tryFitLoop_count_le (cpl b : ℤ) (items : List String) (used : ℤ) :
    ((tryFitLoop cpl b items used).1).length ≤ items.length := by
  obtain ⟨k, h1, _⟩ := tryFitLoop_take cpl b items used
  rw [h1, List.length_take]
  exact min_le_right _ _

theorem fitCount_mono_fonts (content : List String) (uwS uhS uwB uhB : ℚ)
    (hw : uwS ≤ uwB) (hh : uhS ≤ uhB) (hc1 : 1 ≤ charsPerLine uwS 14) :
    ∀ fs ∈ fontCandidates,
      ((tryFitLoop (charsPerLine uwS fs) (totalLinesAvailable uhS fs - 1) content 0).1).length ≤
      ((tryFitLoop (charsPerLine uwB fs) (totalLinesAvailable uhB fs - 1) content 0).1).length := by
  intro fs hfs
  obtain ⟨h0, h14⟩ := fontCandidates_bounds fs hfs
  have hcS : 1 ≤ charsPerLine uwS fs := one_le_charsPerLine hc1 h0 h14
  have hcc : charsPerLine uwS fs ≤ charsPerLine uwB fs := charsPerLine_mono hw h0
  have hln : ∀ it, linesNeeded (charsPerLine uwB fs) it ≤ linesNeeded (charsPerLine uwS fs) it :=
    fun it => linesNeeded_anti hcS hcc it
  have hbud := @totalLinesAvailable_mono uhB uhS fs hh (le_of_lt h0)
  exact tryFitLoop_length_mono hln content 0 0 (by omega)

theorem calcLoop_font_le (content : List String) (uwS uhS uwB uhB : ℚ)
    (hacc : ∀ fs ∈ fontCandidates,
      ((tryFitLoop (charsPerLine uwS fs) (totalLinesAvailable uhS fs - 1) content 0).1).length ≤
      ((tryFitLoop (charsPerLine uwB fs) (totalLinesAvailable uhB fs - 1) content 0).1).length) :
    ∀ l : List ℤ, (∀ fs ∈ l, fs ∈ fontCandidates) →
      List.Pairwise (fun a b => b ≤ a) l → (∀ fs ∈ l, (8 : ℤ) ≤ fs) →
      ∀ rS rB, calcLoop content uwS uhS l = some rS →
        calcLoop content uwB uhB l = some rB → rS.fontSize ≤ rB.fontSize := by
  intro l
  induction l with
  | nil =>
    intro _ _ _ rS rB hS hB
    simp only [calcLoop] at hS hB
    rcases hFS : forceFitContentWithCompression content uwS uhS 8 with _ | ⟨fS, sS⟩ <;>
      rw [hFS] at hS
    · simp at hS
    · rcases hFB : forceFitContentWithCompression content uwB uhB 8 with _ | ⟨fB, sB⟩ <;>
        rw [hFB] at hB
      · simp at hB
      · simp only [Option.some.injEq] at hS hB
        rw [← hS, ← hB]
  | cons fs rest ih =>
    intro hmem hpair h8 rS rB hS hB
    simp only [calcLoop] at hS hB
    rcases hTS : tryFitContentWithFont content uwS uhS fs with _ | ⟨fS, sS⟩ <;> rw [hTS] at hS
    · simp at hS
    · dsimp only at hS
      rcases hTB : tryFitContentWithFont content uwB uhB fs with _ | ⟨fB, sB⟩ <;> rw [hTB] at hB
      · simp at hB
      · dsimp only at hB
        have hcrashS : ¬ (charsPerLine uwS fs = 0 ∧ content ≠ []) := by
          intro hc
          simp [tryFitContentWithFont, hc] at hTS
        have hcrashB : ¬ (charsPerLine uwB fs = 0 ∧ content ≠ []) := by
          intro hc
          simp [tryFitContentWithFont, hc] at hTB
        have hES := tryFitContentWithFont_eq content uwS uhS fs hcrashS
        rw [hTS] at hES
        simp only [Option.some.injEq, Prod.mk.injEq] at hES
        have hEB := tryFitContentWithFont_eq content uwB uhB fs hcrashB
        rw [hTB] at hEB
        simp only [Option.some.injEq, Prod.mk.injEq] at hEB
        have hlen : fS.length ≤ fB.length := by
          rw [hES.1, hEB.1]
          exact hacc fs (hmem fs (List.mem_cons_self fs rest))
        have hBle : fB.length ≤ content.length := by
          rw [hEB.1]
          exact tryFitLoop_count_le _ _ _ _
        by_cases haccS : min 3 content.length ≤ fS.length ∨ fS.length = content.length
        · have haccB : min 3 content.length ≤ fB.length ∨ fB.length = content.length := by
            rcases haccS with h | h
            · exact Or.inl (le_trans h hlen)
            · refine Or.inl ?_
              calc min 3 content.length ≤ content.length := min_le_right _ _
                _ = fS.length := h.symm
                _ ≤ fB.length := hlen
          rw [if_pos haccS] at hS
          rw [if_pos haccB] at hB
          simp only [Option.some.injEq] at hS hB
          rw [← hS, ← hB]
        · by_cases haccB : min 3 content.length ≤ fB.length ∨ fB.length = content.length
          · rw [if_neg haccS] at hS
            rw [if_pos haccB] at hB
            simp only [Option.some.injEq] at hB
            have hfont : rS.fontSize ≤ fs := by
              rcases calcLoop_font_mem content uwS uhS rest rS hS with hm | hm8
              · exact (List.pairwise_cons.mp hpair).1 _ hm
              · rw [hm8]
                exact h8 fs (List.mem_cons_self fs rest)
            rw [← hB]
            exact hfont
          · rw [if_neg haccS] at hS
            rw [if_neg haccB] at hB
            exact ih (fun g hg => hmem g (List.mem_cons_of_mem fs hg))
              (List.pairwise_cons.mp hpair).2
              (fun g hg => h8 g (List.mem_cons_of_mem fs hg)) rS rB hS hB

/-- Claim C7 (amended): holding the items fixed, if the area shrinks (in
width, height, or both) and the shrunken area still grants at least one
character per line at the largest candidate font (the regime in which the
fitter is well defined and its greedy estimates behave monotonically), then
the chosen font size is non-increasing.  The other half of the original
claim — that the number of placed items is also non-increasing — is false;
see the counterexample. -/
theorem chosenFontMonotone (content : List String) (aw1 ah1 aw2 ah2 : ℚ)
    (hw : aw2 ≤ aw1) (hh : ah2 ≤ ah1)
    (hnc : content = [] ∨ 1 ≤ charsPerLine (aw2 - 2/5) 14) :
    ∃ r1 r2, calculatePerfectContentFit content aw1 ah1 = some r1 ∧
      calculatePerfectContentFit content aw2 ah2 = some r2 ∧
      r2.fontSize ≤ r1.fontSize := by
  rcases hnc with hempty | hc1
  · subst hempty
    have h1 : ∀ aw ah : ℚ, calculatePerfectContentFit [] aw ah = some ⟨[], "", 14⟩ := by
      intro aw ah
      unfold calculatePerfectContentFit fontCandidates
      simp [calcLoop, tryFitContentWithFont, tryFitLoop]
    exact ⟨_, _, h1 aw1 ah1, h1 aw2 ah2, le_refl _⟩
  · have hc2 : charsPerLine (aw2 - 2/5) 14 ≠ 0 := by omega
    have huws : aw2 - 2/5 ≤ aw1 - 2/5 := by linarith
    have hc1B : 1 ≤ charsPerLine (aw1 - 2/5) 14 :=
      le_trans hc1 (charsPerLine_mono huws (by norm_num))
    have hcB2 : charsPerLine (aw1 - 2/5) 14 ≠ 0 := by omega
    obtain ⟨r1, hr1, -, -, -⟩ := calcLoop_master content (aw1 - 2/5) (ah1 - 1/5) fontCandidates
      (noCrash_try content _ (Or.inr hcB2)) (noCrash_eight content _ (Or.inr hcB2))
    obtain ⟨r2, hr2, -, -, -⟩ := calcLoop_master content (aw2 - 2/5) (ah2 - 1/5) fontCandidates
      (noCrash_try content _ (Or.inr hc2)) (noCrash_eight content _ (Or.inr hc2))
    refine ⟨r1, r2, hr1, hr2, ?_⟩
    exact calcLoop_font_le content (aw2 - 2/5) (ah2 - 1/5) (aw1 - 2/5) (ah1 - 1/5)
      (fitCount_mono_fonts content _ _ _ _ huws (by linarith) hc1)
      fontCandidates (fun _ h => h) (by decide) (by decide) r2 r1 hr2 hr1

/-- Claim C7 witness: one short item, width fixed at 2.5, height shrinking
from 2 to 1.5. -/
theorem chosenFontMonotone_witness :
    ((5/2 : ℚ) ≤ 5/2 ∧ (3/2 : ℚ) ≤ 2) ∧
    ∃ r1 r2, calculatePerfectContentFit ["hello"] (5/2) 2 = some r1 ∧
      calculatePerfectContentFit ["hello"] (5/2) (3/2) = some r2 ∧
      r2.fontSize ≤ r1.fontSize := by
  have hc := charsPerLine_compute ((5/2 : ℚ) - 2/5) 14 25 (by norm_num) (by norm_num) (by norm_num)
  exact ⟨⟨le_refl _, by norm_num⟩,
    chosenFontMonotone ["hello"] (5/2) 2 (5/2) (3/2) le_rfl (by norm_num) (Or.inr (by omega))⟩

/-- Claim C7 counterexample: ten identical 24-character items in a width-2.5
area.  At height 2 the fitter accepts font 14 with 3 placed items; at the
smaller height 1.5 font 14 is rejected and font 13 places 4 items — the
number of placed items increases from 3 to 4 as the height decreases, so
"the number of items in placedItems is non-increasing" is false. -/
theorem itemCountNotMonotone :
    ((calculatePerfectContentFit
        ["bbbbbbbbbbbbbbbbbbbbbbbb", "bbbbbbbbbbbbbbbbbbbbbbbb", "bbbbbbbbbbbbbbbbbbbbbbbb",
         "bbbbbbbbbbbbbbbbbbbbbbbb", "bbbbbbbbbbbbbbbbbbbbbbbb", "bbbbbbbbbbbbbbbbbbbbbbbb",
         "bbbbbbbbbbbbbbbbbbbbbbbb", "bbbbbbbbbbbbbbbbbbbbbbbb", "bbbbbbbbbbbbbbbbbbbbbbbb",
         "bbbbbbbbbbbbbbbbbbbbbbbb"] (5/2) 2).map fun r => (r.fitted.length, r.fontSize))
      = some (3, 14) ∧
    ((calculatePerfectContentFit
        ["bbbbbbbbbbbbbbbbbbbbbbbb", "bbbbbbbbbbbbbbbbbbbbbbbb", "bbbbbbbbbbbbbbbbbbbbbbbb",
         "bbbbbbbbbbbbbbbbbbbbbbbb", "bbbbbbbbbbbbbbbbbbbbbbbb", "bbbbbbbbbbbbbbbbbbbbbbbb",
         "bbbbbbbbbbbbbbbbbbbbbbbb", "bbbbbbbbbbbbbbbbbbbbbbbb", "bbbbbbbbbbbbbbbbbbbbbbbb",
         "bbbbbbbbbbbbbbbbbbbbbbbb"] (5/2) (3/2)).map fun r => (r.fitted.length, r.fontSize))
      = some (4, 13) := by
  have hw14 := charsPerLine_compute ((21/10 : ℚ)) 14 25 (by norm_num) (by norm_num) (by norm_num)
  have hw13 := charsPerLine_compute ((21/10 : ℚ)) 13 27 (by norm_num) (by norm_num) (by norm_num)
  have ht14a := totalLinesAvailable_compute ((9/5 : ℚ)) 14 8 (by norm_num) (by norm_num) (by norm_num)
  have ht14b := totalLinesAvailable_compute ((13/10 : ℚ)) 14 5 (by norm_num) (by norm_num) (by norm_num)
  have ht13b := totalLinesAvailable_compute ((13/10 : ℚ)) 13 5 (by norm_num) (by norm_num) (by norm_num)
  have hln25 : linesNeeded 25 "bbbbbbbbbbbbbbbbbbbbbbbb" = 2 :=
    linesNeeded_compute 25 "bbbbbbbbbbbbbbbbbbbbbbbb" 26 2 2 (by decide) (by norm_num)
      (by push_cast; rw [lt_div_iff₀ (by norm_num : (0:ℚ) < 25)]; norm_num)
      (by push_cast; rw [div_le_iff₀ (by norm_num : (0:ℚ) < 25)]; norm_num)
      (by norm_num) (by norm_num) (by norm_num)
  have hln27 : linesNeeded 27 "bbbbbbbbbbbbbbbbbbbbbbbb" = 1 :=
    linesNeeded_compute 27 "bbbbbbbbbbbbbbbbbbbbbbbb" 26 1 1 (by decide) (by norm_num)
      (by push_cast; rw [lt_div_iff₀ (by norm_num : (0:ℚ) < 27)]; norm_num)
      (by push_cast; rw [div_le_iff₀ (by norm_num : (0:ℚ) < 27)]; norm_num)
      (by norm_num) (by norm_num) (by norm_num)
  constructor <;>
    · unfold calculatePerfectContentFit fontCandidates
      norm_num [calcLoop, tryFitContentWithFont, tryFitLoop,
        hw14, hw13, ht14a, ht14b, ht13b, hln25, hln27, min_def]

theorem one_le_of_one_le_pyInt {q : ℚ} (h : 1 ≤ pyInt q) : 1 ≤ q := by
  by_contra hc
  push_neg at hc
  have := pyInt_lt_one hc
  omega

theorem pyInt_lower {q : ℚ} (h : 0 ≤ q) : q - 1 < (pyInt q : ℚ) := by
  unfold pyInt
  rw [if_neg (not_lt.mpr h)]
  exact Int.sub_one_lt_floor q

theorem le_pyInt_of {z : ℤ} {q : ℚ} (h0 : 0 ≤ q) (h : (z : ℚ) ≤ q) : z ≤ pyInt q := by
  unfold pyInt
  rw [if_neg (not_lt.mpr h0)]
  exact Int.le_floor.mpr h

/-- Containment and exact centering, for one axis, of a centered extent of
`e` EMU inside the segment from `c` to `c + len` (inches): the code computes
the inch position `c + (len - e/914400)/2` and converts it with
`Inches(...)`. -/
theorem center_axis (c len : ℚ) (e : ℤ) (hc : 0 ≤ c) (he0 : 0 ≤ e)
    (hee : (e : ℚ) ≤ len * 914400) :
    toEmu c ≤ toEmu (c + (len - (e : ℚ)/914400)/2) ∧
    toEmu (c + (len - (e : ℚ)/914400)/2) + e ≤ toEmu (c + len) ∧
    (c + (len - (e : ℚ)/914400)/2) - c
      = (c + len) - ((c + (len - (e : ℚ)/914400)/2) + (e : ℚ)/914400) := by
  have heq : (e : ℚ)/914400 ≤ len := by
    rw [div_le_iff₀ (by norm_num : (0:ℚ) < 914400)]
    linarith
  have hpos : c ≤ c + (len - (e : ℚ)/914400)/2 := by linarith
  have he0q : (0 : ℚ) ≤ (e : ℚ) := by exact_mod_cast he0
  have hL0 : (0 : ℚ) ≤ c + (len - (e : ℚ)/914400)/2 := le_trans hc hpos
  refine ⟨?_, ?_, by ring⟩
  · unfold toEmu
    apply pyInt_mono
    have := mul_le_mul_of_nonneg_right hpos (by norm_num : (0:ℚ) ≤ 914400)
    linarith
  · have h1 : ((pyInt ((c + (len - (e : ℚ)/914400)/2) * 914400) : ℤ) : ℚ)
        ≤ (c + (len - (e : ℚ)/914400)/2) * 914400 :=
      pyInt_le_self (mul_nonneg hL0 (by norm_num))
    have h2 : (0 : ℚ) ≤ (c + len) * 914400 := by nlinarith
    unfold toEmu
    apply le_pyInt_of h2
    push_cast
    linarith

/-- Claim C4: for every readable image of positive dimensions placed into a
(non-degenerate, at least one EMU in each direction) rectangle,
`_add_image_to_area` scales the image to fit inside the rectangle while
preserving its aspect ratio up to one EMU of truncation, so that it touches
the rectangle in one dimension (the min-scale fit `min(rectW/imgW,
rectH/imgH)`), centers it exactly at the inch level, keeps the final EMU
bounding box fully inside the rectangle, and sizes the background frame as
the image's post-scale bounding box plus the fixed `Inches(0.05)` padding
per side — never from the rectangle's nominal bounds. -/
theorem imageFitContainment (imgW imgH : ℚ) (area : AreaRect)
    (hiw : 0 < imgW) (hih : 0 < imgH) (hx : 0 ≤ area.x) (hy : 0 ≤ area.y)
    (hw : 1 ≤ toEmu area.width) (hh : 1 ≤ toEmu area.height) :
    (fitImageInArea imgW imgH area).imgWidth ≤ toEmu area.width ∧
    (fitImageInArea imgW imgH area).imgHeight ≤ toEmu area.height ∧
    ((fitImageInArea imgW imgH area).imgWidth = toEmu area.width ∨
     (fitImageInArea imgW imgH area).imgHeight = toEmu area.height) ∧
    ((fitImageInArea imgW imgH area).imgHeight : ℚ) * imgW ≤
      ((fitImageInArea imgW imgH area).imgWidth : ℚ) * imgH + imgH ∧
    ((fitImageInArea imgW imgH area).imgWidth : ℚ) * imgH ≤
      ((fitImageInArea imgW imgH area).imgHeight : ℚ) * imgW + imgW ∧
    (fitImageInArea imgW imgH area).imgLeftIn - area.x
      = (area.x + area.width) - ((fitImageInArea imgW imgH area).imgLeftIn +
          ((fitImageInArea imgW imgH area).imgWidth : ℚ) / 914400) ∧
    (fitImageInArea imgW imgH area).imgTopIn - area.y
      = (area.y + area.height) - ((fitImageInArea imgW imgH area).imgTopIn +
          ((fitImageInArea imgW imgH area).imgHeight : ℚ) / 914400) ∧
    toEmu area.x ≤ (fitImageInArea imgW imgH area).imgLeft ∧
    toEmu area.y ≤ (fitImageInArea imgW imgH area).imgTop ∧
    (fitImageInArea imgW imgH area).imgLeft + (fitImageInArea imgW imgH area).imgWidth
      ≤ toEmu (area.x + area.width) ∧
    (fitImageInArea imgW imgH area).imgTop + (fitImageInArea imgW imgH area).imgHeight
      ≤ toEmu (area.y + area.height) ∧
    (fitImageInArea imgW imgH area).frameLeft
      = (fitImageInArea imgW imgH area).imgLeft - toEmu (1/20) ∧
    (fitImageInArea imgW imgH area).frameTop
      = (fitImageInArea imgW imgH area).imgTop - toEmu (1/20) ∧
    (fitImageInArea imgW imgH area).frameWidth
      = (fitImageInArea imgW imgH area).imgWidth + 2 * toEmu (1/20) ∧
    (fitImageInArea imgW imgH area).frameHeight
      = (fitImageInArea imgW imgH area).imgHeight + 2 * toEmu (1/20) := by
  have h45 : toEmu (1/20) = 45720 := by
    unfold toEmu
    exact pyInt_of_bounds _ _ (by norm_num) (by norm_num) (by norm_num)
  have h91 : toEmu (1/10) = 91440 := by
    unfold toEmu
    exact pyInt_of_bounds _ _ (by norm_num) (by norm_num) (by norm_num)
  have hWq : (0 : ℚ) < ((toEmu area.width : ℤ) : ℚ) := by
    have : (0 : ℤ) < toEmu area.width := by omega
    exact_mod_cast this
  have hHq : (0 : ℚ) < ((toEmu area.height : ℤ) : ℚ) := by
    have : (0 : ℤ) < toEmu area.height := by omega
    exact_mod_cast this
  have haspect : (0 : ℚ) < imgW / imgH := div_pos hiw hih
  have harea : (0 : ℚ) < ((toEmu area.width : ℤ) : ℚ) / ((toEmu area.height : ℤ) : ℚ) :=
    div_pos hWq hHq
  have hwlen : (1 : ℚ) ≤ area.width * 914400 := one_le_of_one_le_pyInt hw
  have hhlen : (1 : ℚ) ≤ area.height * 914400 := one_le_of_one_le_pyInt hh
  have hWle : ((toEmu area.width : ℤ) : ℚ) ≤ area.width * 914400 :=
    pyInt_le_self (by linarith)
  have hHle : ((toEmu area.height : ℤ) : ℚ) ≤ area.height * 914400 :=
    pyInt_le_self (by linarith)
  simp only [fitImageInArea]
  by_cases hbr : ((toEmu area.width : ℤ) : ℚ) / ((toEmu area.height : ℤ) : ℚ) < imgW / imgH
  · simp only [if_pos hbr]
    have hq0 : (0 : ℚ) ≤ ((toEmu area.width : ℤ) : ℚ) / (imgW / imgH) :=
      le_of_lt (div_pos hWq haspect)
    have heh0 : 0 ≤ pyInt (((toEmu area.width : ℤ) : ℚ) / (imgW / imgH)) :=
      pyInt_nonneg (by linarith)
    have hehle : ((pyInt (((toEmu area.width : ℤ) : ℚ) / (imgW / imgH)) : ℤ) : ℚ)
        ≤ ((toEmu area.width : ℤ) : ℚ) / (imgW / imgH) := pyInt_le_self hq0
    have hehgt : ((toEmu area.width : ℤ) : ℚ) / (imgW / imgH) - 1
        < ((pyInt (((toEmu area.width : ℤ) : ℚ) / (imgW / imgH)) : ℤ) : ℚ) := pyInt_lower hq0
    have heq1 : ((toEmu area.width : ℤ) : ℚ) / (imgW / imgH) * imgW
        = ((toEmu area.width : ℤ) : ℚ) * imgH := by
      field_simp
    have hltH : ((pyInt (((toEmu area.width : ℤ) : ℚ) / (imgW / imgH)) : ℤ) : ℚ)
        < ((toEmu area.height : ℤ) : ℚ) := by
      have hlt := div_lt_div_of_pos_left hWq harea hbr
      have heq2 : ((toEmu area.width : ℤ) : ℚ)
          / (((toEmu area.width : ℤ) : ℚ) / ((toEmu area.height : ℤ) : ℚ))
          = ((toEmu area.height : ℤ) : ℚ) := by
        field_simp
      rw [heq2] at hlt
      linarith
    have hIH : pyInt (((toEmu area.width : ℤ) : ℚ) / (imgW / imgH)) ≤ toEmu area.height := by
      have : pyInt (((toEmu area.width : ℤ) : ℚ) / (imgW / imgH)) < toEmu area.height := by
        exact_mod_cast hltH
      omega
    have hehlen : ((pyInt (((toEmu area.width : ℤ) : ℚ) / (imgW / imgH)) : ℤ) : ℚ)
        ≤ area.height * 914400 := le_trans (le_of_lt hltH) hHle
    obtain ⟨hcx1, hcx2, hcx3⟩ := center_axis area.x area.width (toEmu area.width) hx
      (by omega) hWle
    obtain ⟨hcy1, hcy2, hcy3⟩ := center_axis area.y area.height
      (pyInt (((toEmu area.width : ℤ) : ℚ) / (imgW / imgH))) hy heh0 hehlen
    refine ⟨le_refl _, hIH, Or.inl trivial, ?_, ?_, hcx3, hcy3, hcx1, hcy1, hcx2, hcy2,
      trivial, trivial, ?_, ?_⟩
    · have := mul_le_mul_of_nonneg_right hehle (le_of_lt hiw)
      rw [heq1] at this
      linarith
    · have := mul_lt_mul_of_pos_right hehgt hiw
      rw [sub_mul, heq1] at this
      linarith
    · rw [h45, h91]
      ring
    · rw [h45, h91]
      ring
  · simp only [if_neg hbr]
    have hble := le_of_not_lt hbr
    have hq0 : (0 : ℚ) ≤ ((toEmu area.height : ℤ) : ℚ) * (imgW / imgH) :=
      mul_nonneg (le_of_lt hHq) (le_of_lt haspect)
    have hew0 : 0 ≤ pyInt (((toEmu area.height : ℤ) : ℚ) * (imgW / imgH)) :=
      pyInt_nonneg (by linarith)
    have hewle : ((pyInt (((toEmu area.height : ℤ) : ℚ) * (imgW / imgH)) : ℤ) : ℚ)
        ≤ ((toEmu area.height : ℤ) : ℚ) * (imgW / imgH) := pyInt_le_self hq0
    have hewgt : ((toEmu area.height : ℤ) : ℚ) * (imgW / imgH) - 1
        < ((pyInt (((toEmu area.height : ℤ) : ℚ) * (imgW / imgH)) : ℤ) : ℚ) := pyInt_lower hq0
    have heq1 : ((toEmu area.height : ℤ) : ℚ) * (imgW / imgH) * imgH
        = ((toEmu area.height : ℤ) : ℚ) * imgW := by
      field_simp
    have hleW : ((toEmu area.height : ℤ) : ℚ) * (imgW / imgH) ≤ ((toEmu area.width : ℤ) : ℚ) := by
      have hstep := mul_le_mul_of_nonneg_left hble (le_of_lt hHq)
      have heq2 : ((toEmu area.height : ℤ) : ℚ)
          * (((toEmu area.width : ℤ) : ℚ) / ((toEmu area.height : ℤ) : ℚ))
          = ((toEmu area.width : ℤ) : ℚ) := by
        field_simp
      rw [heq2] at hstep
      linarith
    have hIW : pyInt (((toEmu area.height : ℤ) : ℚ) * (imgW / imgH)) ≤ toEmu area.width := by
      have h1 : ((pyInt (((toEmu area.height : ℤ) : ℚ) * (imgW / imgH)) : ℤ) : ℚ)
          ≤ ((toEmu area.width : ℤ) : ℚ) := le_trans hewle hleW
      exact_mod_cast h1
    have hewlen : ((pyInt (((toEmu area.height : ℤ) : ℚ) * (imgW / imgH)) : ℤ) : ℚ)
        ≤ area.width * 914400 := le_trans (le_trans hewle hleW) hWle
    obtain ⟨hcx1, hcx2, hcx3⟩ := center_axis area.x area.width
      (pyInt (((toEmu area.height : ℤ) : ℚ) * (imgW / imgH))) hx hew0 hewlen
    obtain ⟨hcy1, hcy2, hcy3⟩ := center_axis area.y area.height (toEmu area.height) hy
      (by omega) hHle
    refine ⟨hIW, le_refl _, Or.inr trivial, ?_, ?_, hcx3, hcy3, hcx1, hcy1, hcx2, hcy2,
      trivial, trivial, ?_, ?_⟩
    · have := mul_lt_mul_of_pos_right hewgt hih
      rw [sub_mul, heq1] at this
      linarith
    · have := mul_le_mul_of_nonneg_right hewle (le_of_lt hih)
      rw [heq1] at this
      linarith
    · rw [h45, h91]
      ring
    · rw [h45, h91]
      ring

/-- Claim C4 witness: a 2 × 1 image placed into the concrete rectangle
`c4Area` (x = 5, y = 1.5, width = 4.5, height = 5.5): all fifteen geometry
conclusions hold at this instance. -/
theorem imageFitContainment_witness :
    ((0 : ℚ) < 2 ∧ (0 : ℚ) < 1 ∧ (0 : ℚ) ≤ c4Area.x ∧ (0 : ℚ) ≤ c4Area.y ∧
      1 ≤ toEmu c4Area.width ∧ 1 ≤ toEmu c4Area.height) ∧
    ((fitImageInArea 2 1 c4Area).imgWidth ≤ toEmu c4Area.width ∧
     (fitImageInArea 2 1 c4Area).imgHeight ≤ toEmu c4Area.height ∧
     ((fitImageInArea 2 1 c4Area).imgWidth = toEmu c4Area.width ∨
      (fitImageInArea 2 1 c4Area).imgHeight = toEmu c4Area.height) ∧
     ((fitImageInArea 2 1 c4Area).imgHeight : ℚ) * 2 ≤
       ((fitImageInArea 2 1 c4Area).imgWidth : ℚ) * 1 + 1 ∧
     ((fitImageInArea 2 1 c4Area).imgWidth : ℚ) * 1 ≤
       ((fitImageInArea 2 1 c4Area).imgHeight : ℚ) * 2 + 2 ∧
     (fitImageInArea 2 1 c4Area).imgLeftIn - c4Area.x
       = (c4Area.x + c4Area.width) - ((fitImageInArea 2 1 c4Area).imgLeftIn +
           ((fitImageInArea 2 1 c4Area).imgWidth : ℚ) / 914400) ∧
     (fitImageInArea 2 1 c4Area).imgTopIn - c4Area.y
       = (c4Area.y + c4Area.height) - ((fitImageInArea 2 1 c4Area).imgTopIn +
           ((fitImageInArea 2 1 c4Area).imgHeight : ℚ) / 914400) ∧
     toEmu c4Area.x ≤ (fitImageInArea 2 1 c4Area).imgLeft ∧
     toEmu c4Area.y ≤ (fitImageInArea 2 1 c4Area).imgTop ∧
     (fitImageInArea 2 1 c4Area).imgLeft + (fitImageInArea 2 1 c4Area).imgWidth
       ≤ toEmu (c4Area.x + c4Area.width) ∧
     (fitImageInArea 2 1 c4Area).imgTop + (fitImageInArea 2 1 c4Area).imgHeight
       ≤ toEmu (c4Area.y + c4Area.height) ∧
     (fitImageInArea 2 1 c4Area).frameLeft
       = (fitImageInArea 2 1 c4Area).imgLeft - toEmu (1/20) ∧
     (fitImageInArea 2 1 c4Area).frameTop
       = (fitImageInArea 2 1 c4Area).imgTop - toEmu (1/20) ∧
     (fitImageInArea 2 1 c4Area).frameWidth
       = (fitImageInArea 2 1 c4Area).imgWidth + 2 * toEmu (1/20) ∧
     (fitImageInArea 2 1 c4Area).frameHeight
       = (fitImageInArea 2 1 c4Area).imgHeight + 2 * toEmu (1/20)) := by
  have hw : (1 : ℤ) ≤ toEmu c4Area.width :=
    le_pyInt_of (by norm_num [c4Area]) (by norm_num [c4Area])
  have hh : (1 : ℤ) ≤ toEmu c4Area.height :=
    le_pyInt_of (by norm_num [c4Area]) (by norm_num [c4Area])
  exact ⟨⟨by norm_num, by norm_num, by norm_num [c4Area], by norm_num [c4Area], hw, hh⟩,
    imageFitContainment 2 1 c4Area (by norm_num) (by norm_num)
      (by norm_num [c4Area]) (by norm_num [c4Area]) hw hh⟩
